import Mathlib

/-!
Verification of the OTS validator container (src/P2P.js and the Merkle tree
module reproduced in src/README.md) against its natural-language specification.

The JavaScript is shallowly embedded: JS numbers that hold balances, stakes,
nonces, amounts and timestamps are modelled as `Int` (the spec fixes them to
integers); JS objects used as string-keyed dictionaries are modelled as
association lists in insertion order (assignment to an existing key updates in
place, assignment to a fresh key appends, matching JS property order);
exceptions are modelled by an explicit `err` field / error outcome, and
mutations performed before a throw are kept, as in the source.  SHA-256
(`crypto.createHash('sha256')`), the transaction leaf hash
(`transaction.hash(false)`) and the canonical serialization live in external
modules, so the development is parameterised over them
(`H : String → String`, `txHash serialize : Tx → String`); `Date.now()` is
parameterised as `now : Int` (seconds, already floored).
-/

namespace OTS

/-- Constants from the top of src/P2P.js. -/
def minStake : Int := 1000000000

/-- Fee constant from src/P2P.js. -/
def fee : Int := 100

/-- Fine (slashing) constant from src/P2P.js. -/
def fine : Int := 10000

/-- Timestamp tolerance in seconds, from src/P2P.js. -/
def timestampRange : Int := 60

/-- Vote timeout in milliseconds, from src/P2P.js. -/
def maxVoteTime : Int := 10000

/-- Size of the genesis window: the literal 6 used in createAccState,
transactionValid and the commit path. -/
def genesisWindow : Nat := 6

/-- Account record `{ balance, stake, nonce }` (created as
`{ balance: 0, stake: 0, nonce: 0 }` on first touch). -/
structure Account where
  balance : Int
  stake : Int
  nonce : Int
deriving DecidableEq

/-- The default account object `{ balance: 0, stake: 0, nonce: 0 }`. -/
def Account.init : Account := ⟨0, 0, 0⟩

/-- Transaction object.  `from` and `to` are Lean keywords, so the fields are
`from'` and `to'`.  `sigOk` is modelled from the spec: it stands for the
outcome of `transaction.verify()` (secp256k1 signature verification over the
unsigned hash), whose implementation lives in the absent src/Transaction.js. -/
structure Tx where
  from' : String
  to' : String
  amount : Int
  nonce : Int
  timestamp : Int
  body : String
  sigOk : Bool
deriving DecidableEq

/-- Lookup in a JS-object-as-dictionary (string keys, insertion order): the
value at the first (and only) occurrence of the key. -/
def getEntry {β : Type} : List (String × β) → String → Option β
  | [], _ => none
  | (k', v') :: rest, k => if k' == k then some v' else getEntry rest k

/-- Assignment `obj[k] = v` on a JS object: updates the existing key in place,
otherwise appends (JS preserves first-insertion order of keys). -/
def setEntry {β : Type} : List (String × β) → String → β → List (String × β)
  | [], k, v => [(k, v)]
  | (k', v') :: rest, k, v =>
    if k' == k then (k, v) :: rest else (k', v') :: setEntry rest k v

/-- The accounts dictionary `chain.accounts`. -/
abbrev AccMap := List (String × Account)

/-- The idiom `accounts[k] = accounts[k] || { balance: 0, stake: 0, nonce: 0 }`. -/
def ensureAcc (m : AccMap) (k : String) : AccMap :=
  if (getEntry m k).isSome then m else setEntry m k Account.init

/-- JS `String.prototype.sort` comparison: default `Array.prototype.sort`
compares elements as strings, code-unit-wise.  `compare` on `String` is the
same lexicographic order. -/
def strLe (a b : String) : Bool :=
  match compare a b with
  | .gt => false
  | _ => true

/-- Insertion into a sorted list, used to model `Array.prototype.sort()`. -/
def insertSorted (x : String) : List String → List String
  | [] => [x]
  | y :: ys => if strLe x y then x :: y :: ys else y :: insertSorted x ys

/-- Model of `[...].sort()` on an array of strings (insertion sort; JS sort is
stable, and stability is irrelevant for equal strings). -/
def jsSort (l : List String) : List String := l.foldr insertSorted []

/-- JS string coercion of a boolean, as produced when `sort()` compares the
vote booleans. -/
def jsBool (b : Bool) : String := if b then "true" else "false"

/-- The validators-root of a vote map:
`hash(Object.keys(v).sort().join(':') + ":" + Object.values(v).sort().join(':'))`
(P2P.js lines 177 and 378). -/
def validatorsHash (H : String → String) (vs : List (String × Bool)) : String :=
  H (String.intercalate ":" (jsSort (vs.map (·.1))) ++ ":" ++
     String.intercalate ":" (jsSort (vs.map (fun p => jsBool p.2))))

/-- Committed record: one entry of `chain.transactions`
(`{ transaction, validators, validatorsRoot }`). -/
structure Record where
  transaction : Tx
  validators : List (String × Bool)
  validatorsRoot : String
deriving DecidableEq

/-- Embedding of `transactionValid(transaction, now)` (P2P.js lines 198-224).
`chainLen` is `this.chain.transactions.length`, `pendingLen` is
`this.pendingTxs.length`, `now` is `Math.floor(Date.now() / 1000)` and
`nowFlag` the second argument.  When `nowFlag` is set and `accounts[from]` is
missing, line 214 reads `.nonce` of `undefined`; the `try`/`catch` turns that
throw into `[false, [err]]`, which the first branch models. -/
def transactionValid (accounts : AccMap) (chainLen pendingLen : Nat) (now : Int)
    (t : Tx) (nowFlag : Bool) : Bool × List String :=
  if nowFlag && (getEntry accounts t.from').isNone then
    (false, ["TypeError"])
  else
    let acct := getEntry accounts t.from'
    let fromFuture : Bool := decide (t.timestamp > now + timestampRange)
    let expired : Bool := nowFlag &&
      decide (t.timestamp < timestampRange + (pendingLen : Int) * (maxVoteTime / 1000))
    let lowAmount : Bool := decide (t.amount < fee)
    let noFrom : Bool := acct.isNone
    let lowBalance : Bool :=
      match acct with
      | some a => decide (a.balance < t.amount)
      | none => false
    let badNonce : Bool := nowFlag &&
      (match acct with
       | some a => decide (t.nonce ≠ a.nonce)
       | none => false)
    let valid := t.sigOk &&
      !(fromFuture || expired || lowAmount || noFrom || lowBalance || badNonce)
    let reasons :=
      (if fromFuture then ["Transaction from future"] else []) ++
      (if expired then ["Timestamp has expired"] else []) ++
      (if lowAmount then ["Amount is lower than fee"] else []) ++
      (if noFrom then ["Invalid from"] else []) ++
      (if lowBalance then ["Balance lower than amount"] else []) ++
      (if badNonce then ["Invalid nonce"] else [])
    if decide (chainLen < genesisWindow) && (t.body == "GENESIS") then (true, [])
    else (valid, reasons)

/-! ## Transaction Merkle tree (TransactionMerkle.js, reproduced in src/README.md) -/

/-- State of the incremental Merkle tree: the leaf list and the levels array
(level 0 first).  The constructor initialises `leaves = []`, `levels = [[]]`. -/
structure MerkleTree where
  leaves : List String
  levels : List (List String)
deriving DecidableEq

/-- The `TransactionMerkle` constructor. -/
def MerkleTree.init : MerkleTree := ⟨[], [[]]⟩

/-- The promotion loop of `add`: while the current level has even non-zero
length, drop its last two nodes and push their combined hash onto the next
level (creating that level when missing), then continue there.  A freshly
created level receives exactly one node, so the loop exits right after, which
the first match arm inlines. -/
def addCarry (H : String → String) : List (List String) → List (List String)
  | [] => []
  | nodes :: rest =>
    if nodes.length % 2 == 0 && nodes.length != 0 then
      let a := nodes.getD (nodes.length - 2) ""
      let b := nodes.getD (nodes.length - 1) ""
      match rest with
      | [] => [nodes.take (nodes.length - 2), [H (a ++ b)]]
      | next :: rr =>
        nodes.take (nodes.length - 2) :: addCarry H ((next ++ [H (a ++ b)]) :: rr)
    else
      nodes :: rest
termination_by l => l.length

/-- `add(transaction)`: push the leaf hash onto `leaves` and onto level 0,
then run the promotion loop.  The argument is the leaf hash
`transaction.hash(false).toString('hex')` already extracted. -/
def MerkleTree.add (H : String → String) (t : MerkleTree) (leafHash : String) :
    MerkleTree :=
  let levels1 :=
    match t.levels with
    | [] => [[leafHash]]
    | l0 :: r => (l0 ++ [leafHash]) :: r
  ⟨t.leaves ++ [leafHash], addCarry H levels1⟩

/-- JS semantics of `s < n` for a string `s` and number `n`: the string is
coerced to a number; a non-numeric string gives NaN and the comparison is
false.  (The strings compared here are either 64-hex-digit hashes — NaN or
astronomically large — so the comparison is false on every reachable input.) -/
def jsNumLt (s : String) (n : Nat) : Bool :=
  match s.toNat? with
  | some v => decide (v < n)
  | none => false

/-- One pass of the `getRoot` while-loop.  By JS precedence the body
`hash(nodes[i] + i + 1 < nodes.length ? nodes[i + 1] : nodes[i])` parses as
`hash(((nodes[i] + i) + 1 < nodes.length) ? nodes[i + 1] : nodes[i])`: the
condition concatenates `nodes[i]`, the decimal of `i` and `"1"` and compares
that string against the length. -/
def rootPass (H : String → String) (nodes : List String) : List String :=
  (List.range ((nodes.length + 1) / 2)).map (fun k =>
    let i := 2 * k
    if jsNumLt (nodes.getD i "" ++ toString i ++ "1") nodes.length then
      H (nodes.getD (i + 1) "")
    else
      H (nodes.getD i ""))

theorem rootPass_length (H : String → String) (nodes : List String) :
    (rootPass H nodes).length = (nodes.length + 1) / 2 := by
  simp [rootPass]

/-- The `while (nodes.length > 1)` loop of `getRoot`. -/
def getRootLoop (H : String → String) (nodes : List String) : List String :=
  if _h : nodes.length > 1 then getRootLoop H (rootPass H nodes) else nodes
termination_by nodes.length
decreasing_by
  rw [rootPass_length]
  omega

/-- `getRoot()`: the empty tree returns `hash('0')`; otherwise run the loop on
a copy of the top-most level and return `nodes[0]`. -/
def MerkleTree.getRoot (H : String → String) (t : MerkleTree) : String :=
  if t.leaves.length == 0 then H "0"
  else (getRootLoop H (t.levels.getLastD [])).getD 0 ""

/-- Pairwise combination step in the words of the specification: each adjacent
pair `(x, y)` is replaced by the hash of `x` concatenated with `y`, with the
last node duplicated when the level has odd length. -/
def pairUp (H : String → String) : List String → List String
  | [] => []
  | [x] => [H (x ++ x)]
  | x :: y :: rest => H (x ++ y) :: pairUp H rest

theorem pairUp_length (H : String → String) :
    ∀ l : List String, (pairUp H l).length = (l.length + 1) / 2
  | [] => rfl
  | [_] => by simp [pairUp]
  | _ :: _ :: rest => by
    simp [pairUp, pairUp_length H rest]
    omega

/-- Folding the level pairwise, repeating until one node remains, in the words
of the specification. -/
def specRootFold (H : String → String) (nodes : List String) : List String :=
  if _h : nodes.length > 1 then specRootFold H (pairUp H nodes) else nodes
termination_by nodes.length
decreasing_by
  rw [pairUp_length]
  omega

/-- Root in the words of the specification: fold the top-most partial level
pairwise until one node remains and return that node; the empty tree returns
`hash('0')`. -/
def specGetRoot (H : String → String) (t : MerkleTree) : String :=
  if t.leaves.length == 0 then H "0"
  else (specRootFold H (t.levels.getLastD [])).getD 0 ""

/-- Adding a list of leaf hashes to a fresh tree. -/
def addAll (H : String → String) (txs : List String) : MerkleTree :=
  txs.foldl (MerkleTree.add H) MerkleTree.init

/-- Invariant of reachable Merkle-tree states: every level holds at most one
node between calls to `add` (a level is emptied as soon as it reaches two),
the levels array is non-empty, and the top-most level holds exactly one node
once a leaf has been added (the fresh tree is exactly `[[]]`). -/
def MerkleInv (t : MerkleTree) : Prop :=
  (∀ l ∈ t.levels, l.length ≤ 1) ∧ t.levels ≠ [] ∧
  (t.leaves = [] → t.levels = [[]]) ∧
  (t.leaves ≠ [] → (t.levels.getLastD []).length = 1)

/-! ## Replay: createAccState (P2P.js lines 155-190) -/

/-- State threaded through the `createAccState` loop: the accounts dictionary,
the node's Merkle tree, the loop counter `i` (incremented only for applied
records) and the pending exception.  An exception thrown inside the loop
propagates out of `createAccState`, so once `err` is set the remaining records
are not processed; mutations made before the throw are kept. -/
structure RState where
  accounts : AccMap
  tree : MerkleTree
  i : Nat
  err : Option String
deriving DecidableEq

/-- The validity gate of the replay loop: `transactionValid(transaction, false)`
overridden to true inside the genesis window when `body == "GENESIS"`
(P2P.js lines 159-160). -/
def replayAccepts (accounts : AccMap) (chainLen pendingLen : Nat) (now : Int)
    (i : Nat) (t : Tx) : Bool :=
  if decide (i < genesisWindow) && (t.body == "GENESIS") then true
  else (transactionValid accounts chainLen pendingLen now t false).1

/-- The validator reward/slash loop of the replay path (P2P.js lines 178-183):
a validator with a recorded `false` vote loses `fine` of stake, any other
validator gains `floor(fee / count) + 1`; reading a missing validator account
throws. -/
def rewardLoop (n : Nat) : AccMap → List (String × Bool) → AccMap × Option String
  | accs, [] => (accs, none)
  | accs, (v, b) :: rest =>
    match getEntry accs v with
    | none => (accs, some "TypeError")
    | some a =>
      let accs1 :=
        if b == false then setEntry accs v { a with stake := a.stake - fine }
        else setEntry accs v { a with balance := a.balance + (fee / (n : Int) + 1) }
      rewardLoop n accs1 rest

/-- Tail of one replay iteration after the credit step (P2P.js lines 177-188):
the validator step runs only when the recomputed validators-root matches; the
`transaction.data == "GENESIS"` conjunct on line 177 reads a field that does
not exist on `Transaction` (the field is named `body`), so it is `undefined`
and the conjunct never holds, which `dataIsGenesis := false` records.  After
the validator step the sender's nonce is incremented (throwing when
`accounts[from]` is missing); finally the transaction is added to the Merkle
tree and `i` incremented. -/
def replayFinish (H : String → String) (txHash : Tx → String) (st : RState)
    (r : Record) (acc2 : AccMap) : RState :=
  let t := r.transaction
  let dataIsGenesis := false
  if !(dataIsGenesis && decide (st.i < genesisWindow)) &&
      (r.validatorsRoot == validatorsHash H r.validators) then
    match rewardLoop r.validators.length acc2 r.validators with
    | (acc3, some e) => { st with accounts := acc3, err := some e }
    | (acc3, none) =>
      match getEntry acc3 t.from' with
      | none => { st with accounts := acc3, err := some "TypeError" }
      | some a =>
        { accounts := setEntry acc3 t.from' { a with nonce := a.nonce + 1 },
          tree := st.tree.add H (txHash t), i := st.i + 1, err := none }
  else
    { accounts := acc2, tree := st.tree.add H (txHash t), i := st.i + 1, err := none }

/-- The debit block of the replay loop (P2P.js lines 166-169): skipped
entirely for `from == "GENESIS"` inside the genesis window, otherwise
`accounts[from]` is first created when missing and then its balance
decremented by `amount`. -/
def debitPhase (accounts : AccMap) (t : Tx) (i : Nat) : AccMap :=
  if t.from' == "GENESIS" && decide (i < genesisWindow) then accounts
  else
    let m := ensureAcc accounts t.from'
    let a := (getEntry m t.from').getD Account.init
    setEntry m t.from' { a with balance := a.balance - t.amount }

/-- The credit step of the replay loop (P2P.js lines 171-176): credit
`to.balance` (creating the account when missing), or `from.stake` when
`to == "stake"` — reading `accounts[from].stake` throws when that account is
missing, which the error component records. -/
def creditPhase (m : AccMap) (t : Tx) : AccMap × Option String :=
  if t.to' != "stake" then
    let m2 := ensureAcc m t.to'
    let a := (getEntry m2 t.to').getD Account.init
    (setEntry m2 t.to' { a with balance := a.balance + (t.amount - fee) }, none)
  else
    match getEntry m t.from' with
    | none => (m, some "TypeError")
    | some a => (setEntry m t.from' { a with stake := a.stake + (t.amount - fee) }, none)

/-- One iteration of the `createAccState` loop (P2P.js lines 157-188) on one
record.  Skipped records (`continue`) leave the state untouched and do not
advance `i`.  The debit block is followed by the credit step; a throw inside
the credit step aborts the iteration keeping the mutations made so far. -/
def createAccStep (H : String → String) (txHash : Tx → String) (now : Int)
    (chainLen pendingLen : Nat) (st : RState) (r : Record) : RState :=
  if st.err.isSome then st
  else
    let t := r.transaction
    if !(replayAccepts st.accounts chainLen pendingLen now st.i t) then st
    else
      let acc1 := debitPhase st.accounts t st.i
      match creditPhase acc1 t with
      | (acc1e, some e) => { st with accounts := acc1e, err := some e }
      | (acc2, none) => replayFinish H txHash st r acc2

/-- `createAccState(transactions)`: fold the replay iteration over the record
list.  `chainLen` is `this.chain.transactions.length` as seen by
`transactionValid` during the replay — the full list is already installed in
the chain when `createAccState` runs, so it is constant; `pendingLen` is the
length of `this.pendingTxs`. -/
def createAccState (H : String → String) (txHash : Tx → String) (now : Int)
    (chainLen pendingLen : Nat) (init : RState) (records : List Record) : RState :=
  records.foldl (createAccStep H txHash now chainLen pendingLen) init

/-- Replay of a full chain from empty accounts, an empty Merkle tree and an
empty pending queue, as run at startup and after chain sync. -/
def replayChain (H : String → String) (txHash : Tx → String) (now : Int)
    (records : List Record) : RState :=
  createAccState H txHash now records.length 0 ⟨[], MerkleTree.init, 0, none⟩ records

/-! ## Vote state machine (P2P.js msgHandler / sendTransaction) -/

/-- One collected vote in `this.consensus`.  The stored object also carries
`root` and the serialized transaction, but only `valid` is read afterwards. -/
structure ConsVote where
  valid : Bool
deriving DecidableEq

/-- Value of the `valid` field of an outgoing TRANSACTION message.  The
NEW_TRANSACTION handler sends the boolean `transactionValid(t, true)[0]`; the
pending-queue promotion (line 389-391) sends the whole `[valid, reasons]`
pair. -/
inductive VoteVal where
  | bool (b : Bool)
  | pair (b : Bool) (reasons : List String)
deriving DecidableEq

/-- Outgoing protocol messages relevant to the vote machine (the envelope
fields id/key/sign are added by `send` and are not modelled). -/
inductive Msg where
  | TRANSACTION (transaction : String) (valid : VoteVal) (root : String)
  | NEW_TRANSACTION (data : String)
deriving DecidableEq

/-- Per-node state touched by the vote machine.  `voteTimeoutArmed` models
whether a `voteTimeout` timer is pending; `sent` collects broadcast messages. -/
structure NodeState where
  publicKey : String
  vote : Option Tx
  consensus : List (String × ConsVote)
  pendingTxs : List Tx
  voteTimeoutArmed : Bool
  chainTransactions : List Record
  accounts : AccMap
  tree : MerkleTree
  validators : List String
deriving DecidableEq

/-- The NEW_TRANSACTION branch of `msgHandler` (P2P.js lines 322-336): with a
live vote the transaction is pushed onto `pendingTxs`; otherwise the node
broadcasts its TRANSACTION vote (valid flag and local Merkle root), makes the
transaction the live vote, clears `consensus` and arms the vote timeout.
Returns the new state and the broadcast messages. -/
def handleNewTransaction (H : String → String) (serialize : Tx → String)
    (now : Int) (st : NodeState) (t : Tx) : NodeState × List Msg :=
  if st.vote.isSome then ({ st with pendingTxs := st.pendingTxs ++ [t] }, [])
  else
    let valid := (transactionValid st.accounts st.chainTransactions.length
      st.pendingTxs.length now t true).1
    ({ st with vote := some t, consensus := [], voteTimeoutArmed := true },
     [.TRANSACTION (serialize t) (.bool valid) (st.tree.getRoot H)])

/-- `sendTransaction(transaction)` (P2P.js lines 419-428): with a live vote the
transaction is queued, otherwise it becomes the live vote with `consensus`
cleared and the timeout armed; either way a NEW_TRANSACTION message is
broadcast. -/
def sendTransaction (serialize : Tx → String) (st : NodeState) (t : Tx) :
    NodeState × List Msg :=
  let st1 :=
    if st.vote.isSome then { st with pendingTxs := st.pendingTxs ++ [t] }
    else { st with vote := some t, consensus := [], voteTimeoutArmed := true }
  (st1, [.NEW_TRANSACTION (serialize t)])

/-- The commit-path reward/slash loop (P2P.js lines 367-373): iterates over the
`validators` key list, skips validators without an account (`continue`),
slashes a vote different from the result and otherwise credits
`floor(fee / validators.length) + 1`.  The vote is looked up in the consensus
dictionary; every iterated key is present there, so the `getD false` default
is never consulted. -/
def commitRewardLoop (consensus2 : List (String × ConsVote)) (n : Nat)
    (result : Bool) : AccMap → List String → AccMap
  | accs, [] => accs
  | accs, v :: rest =>
    match getEntry accs v with
    | none => commitRewardLoop consensus2 n result accs rest
    | some a =>
      let vvalid := ((getEntry consensus2 v).map ConsVote.valid).getD false
      let accs1 :=
        if vvalid != result then setEntry accs v { a with stake := a.stake - fine }
        else setEntry accs v { a with balance := a.balance + (fee / (n : Int) + 1) }
      commitRewardLoop consensus2 n result accs1 rest

/-- Result of the commit mutation: the new accounts, the record pushed onto
`chain.transactions` (none when an exception aborted the commit) and the
exception. -/
structure CommitOut where
  accounts : AccMap
  record : Option Record
  err : Option String
deriving DecidableEq

/-- The accept path of the tally (P2P.js lines 355-380), run when the vote
passed.  Line 357 decrements `accounts[from].balance` before line 358 creates
the account, so a missing `from` account (outside the GENESIS window case)
throws and nothing is committed.  `consensusPre` is `this.consensus` before
the node adds its own vote (line 351); `validators` is its key list snapshot
taken on line 348, to which the node's own key is pushed on line 366.  The
`transaction.data == "GENESIS"` test on line 365 reads an undefined field
(the field is named `body`), so the validator step always runs. -/
def commitApply (H : String → String) (pk : String) (t : Tx) (chainLen : Nat)
    (consensusPre : List (String × ConsVote)) (selfValid : Bool)
    (accounts : AccMap) : CommitOut :=
  let validators := consensusPre.map (·.1)
  let consensus2 := setEntry consensusPre pk ⟨selfValid⟩
  if !(t.from' == "GENESIS" && decide (chainLen < genesisWindow)) &&
      (getEntry accounts t.from').isNone then
    { accounts := accounts, record := none, err := some "TypeError" }
  else
    let accA :=
      if t.from' == "GENESIS" && decide (chainLen < genesisWindow) then accounts
      else
        let a := (getEntry accounts t.from').getD Account.init
        setEntry accounts t.from' { a with balance := a.balance - t.amount }
    let accB := ensureAcc accA t.from'
    let accC :=
      if t.to' != "stake" then
        let m := ensureAcc accB t.to'
        let a := (getEntry m t.to').getD Account.init
        setEntry m t.to' { a with balance := a.balance + (t.amount - fee) }
      else
        let a := (getEntry accB t.from').getD Account.init
        setEntry accB t.from' { a with stake := a.stake + (t.amount - fee) }
    let dataIsGenesis := false
    if !(dataIsGenesis && decide (chainLen < genesisWindow)) then
      let validators2 := validators ++ [pk]
      let accD := commitRewardLoop consensus2 validators2.length true accC validators2
      match getEntry accD t.from' with
      | none => { accounts := accD, record := none, err := some "TypeError" }
      | some a =>
        let validatorsVotes := consensus2.map (fun p => (p.1, p.2.valid))
        { accounts := setEntry accD t.from' { a with nonce := a.nonce + 1 },
          record := some ⟨t, validatorsVotes, validatorsHash H validatorsVotes⟩,
          err := none }
    else
      let validatorsVotes := consensus2.map (fun p => (p.1, p.2.valid))
      { accounts := accC,
        record := some ⟨t, validatorsVotes, validatorsHash H validatorsVotes⟩,
        err := none }

/-- Close-out of a tally (P2P.js lines 384-394): the vote is cleared, the
pending timer is cancelled (`voteTimeout.close()` — Node's legacy
`Timeout.prototype.close()` calls `clearTimeout`), and when the pending queue
is non-empty its head is shifted out, its TRANSACTION vote broadcast (with the
whole `[valid, reasons]` pair in the `valid` field) and made the live vote
with `consensus` cleared.  The timeout is not re-armed here. -/
def closeOut (H : String → String) (serialize : Tx → String) (now : Int)
    (st : NodeState) : NodeState × List Msg :=
  let st1 := { st with vote := none, voteTimeoutArmed := false }
  match st1.pendingTxs with
  | [] => (st1, [])
  | tx :: rest =>
    let v := transactionValid st1.accounts st1.chainTransactions.length
      rest.length now tx true
    ({ st1 with pendingTxs := rest, vote := some tx, consensus := [] },
     [.TRANSACTION (serialize tx) (.pair v.1 v.2) (st1.tree.getRoot H)])

/-- Outcome of one TRANSACTION-message tally. -/
inductive Outcome where
  | committed
  | rejected
  | errored
  | noQuorum
deriving DecidableEq

/-- The tally portion of the TRANSACTION branch (P2P.js lines 348-395), run
after a peer vote was recorded: when the collected votes reach the validator
count, the node adds its own vote `transactionValid(transaction)` — the `now`
argument is left `undefined`, hence falsy — and commits when the strict
majority of `valid` values is `true`, then closes the slot out.  An exception
in the commit mutation is caught by the handler's `try`, leaving the vote
live and the close-out unreached. -/
def transactionTally (H : String → String) (txHash serialize : Tx → String)
    (now : Int) (st : NodeState) : NodeState × List Msg × Outcome :=
  match st.vote with
  | none => (st, [], .noQuorum)
  | some t =>
    if st.consensus.length < st.validators.length then (st, [], .noQuorum)
    else
      let selfValid := (transactionValid st.accounts st.chainTransactions.length
        st.pendingTxs.length now t false).1
      let consensus2 := setEntry st.consensus st.publicKey ⟨selfValid⟩
      let votes := consensus2.map (fun p => p.2.valid)
      let result :=
        decide ((votes.filter (· == true)).length > (votes.filter (· == false)).length)
      let st1 := { st with consensus := consensus2 }
      if result then
        let out := commitApply H st.publicKey t st.chainTransactions.length
          st.consensus selfValid st.accounts
        match out.record with
        | none => ({ st1 with accounts := out.accounts }, [], .errored)
        | some rcd =>
          let st2 := { st1 with
            accounts := out.accounts
            chainTransactions := st.chainTransactions ++ [rcd]
            tree := st.tree.add H (txHash t) }
          let (st3, ms) := closeOut H serialize now st2
          (st3, ms, .committed)
      else
        let (st3, ms) := closeOut H serialize now st1
        (st3, ms, .rejected)

/-! ## Chain sync (P2P.js CHAIN branch, lines 272-301) -/

/-- One collected CHAIN response: the reported Merkle root and the parsed
transaction list. -/
structure ChainResp where
  root : String
  transactions : List Record
deriving DecidableEq

/-- One step of the plurality tally (P2P.js lines 283-287): bump the count of
the entry's root, then re-read the current maximum's count and take over when
strictly larger. -/
def pluralityStep (acc : List (String × Nat) × String) (e : ChainResp) :
    List (String × Nat) × String :=
  let c := ((getEntry acc.1 e.root).getD 0) + 1
  let rc1 := setEntry acc.1 e.root c
  if c > ((getEntry rc1 acc.2).getD 0) then (rc1, e.root) else (rc1, acc.2)

/-- The root-plurality fold over the collected CHAIN responses, starting from
an empty count map and `maxRoot = ''`. -/
def pluralityFold (entries : List ChainResp) : List (String × Nat) × String :=
  entries.foldl pluralityStep ([], "")

/-- Node state touched by chain sync. -/
structure SyncState where
  chainTransactions : List Record
  accounts : AccMap
  tree : MerkleTree
  wantChain : Bool
  err : Option String
deriving DecidableEq

/-- The adoption part of the CHAIN branch once a response has been collected
(P2P.js lines 279-300): when the collected responses reach `|validators| − 1`,
pick the plurality root, find the first response reporting it, and adopt its
transaction list if it is at least as long as the local chain — zeroing
`accounts`, clearing `wantChain`, installing the list and re-deriving the
account state through `createAccState` (skipped for an empty list).  When no
response carries the winning root, `JSON.parse(undefined)` throws and the
handler's `catch` swallows it. -/
def chainSyncTally (H : String → String) (txHash : Tx → String) (now : Int)
    (vsize : Nat) (entries : List ChainResp) (st : SyncState) : SyncState :=
  if !st.wantChain then st
  else if entries.length + 1 ≥ vsize then
    let maxRoot := (pluralityFold entries).2
    match entries.find? (fun e => e.root == maxRoot) with
    | none => { st with err := some "SyntaxError" }
    | some e =>
      if e.transactions.length ≥ st.chainTransactions.length then
        let st1 := { st with
          accounts := []
          wantChain := false
          chainTransactions := e.transactions }
        if e.transactions.length == 0 then st1
        else
          let r := createAccState H txHash now e.transactions.length 0
            ⟨[], st.tree, 0, none⟩ e.transactions
          { st1 with accounts := r.accounts, tree := r.tree, err := r.err }
      else st
  else st

/-! ## Validator-set maintenance (P2P.js lines 133-141 and 302-321) -/

/-- Events that touch `this.validators`.  The `senderStaked` flag is the
negation of the handler guard
`!accounts[key] || accounts[key].stake < minStake` (P2P.js line 266; the
variable is called `isValidator` but is true for a sender that is NOT a
staked validator, and the handlers `break` when it is set). -/
inductive VEvent where
  | validatorMsg (senderStaked : Bool) (data : String)
  | helloValidatorMsg (senderStaked : Bool) (data : String)
  | validatorsMsg (senderStaked : Bool)
  | socketClose
  | otherMsg
deriving DecidableEq

/-- Set insertion (`this.validators.add(data)`). -/
def setAdd (V : List String) (x : String) : List String :=
  if x ∈ V then V else V ++ [x]

/-- Effect of one event on the validator set: VALIDATOR and HELLO_VALIDATOR
add the announced key only when it differs from the node's own public key
(lines 313 and 320); VALIDATORS and every socket close reset the set to empty
(lines 306 and 138); everything else leaves it unchanged. -/
def vStep (pk : String) (V : List String) : VEvent → List String
  | .validatorMsg staked d =>
    if !staked then V else if d ≠ pk then setAdd V d else V
  | .helloValidatorMsg staked d =>
    if !staked then V else if d ≠ pk then setAdd V d else V
  | .validatorsMsg staked => if !staked then V else []
  | .socketClose => []
  | .otherMsg => V

/-- The vote list examined by the tally (P2P.js lines 351-352): the `valid`
fields of `this.consensus` after the node has inserted its own vote
`transactionValid(transaction)` (with the `now` argument left undefined). -/
def votesAtTally (st : NodeState) (now : Int) (t : Tx) : List Bool :=
  (setEntry st.consensus st.publicKey
    ⟨(transactionValid st.accounts st.chainTransactions.length
      st.pendingTxs.length now t false).1⟩).map (fun p => p.2.valid)

/-- The per-validator vote map stored in a committed record: `this.consensus`
after the node inserted its own vote, mapped to the `valid` booleans
(P2P.js line 376). -/
def recordVotes (consensusPre : List (String × ConsVote)) (pk : String)
    (selfValid : Bool) : List (String × Bool) :=
  (setEntry consensusPre pk ⟨selfValid⟩).map (fun p => (p.1, p.2.valid))

/-- Discriminator for TRANSACTION vote messages. -/
def Msg.isTransactionVote : Msg → Bool
  | .TRANSACTION _ _ _ => true
  | _ => false

/-- A submission reaching the vote machine: an inbound NEW_TRANSACTION message
or a local `sendTransaction` call. -/
inductive Submission where
  | inbound (t : Tx)
  | localSubmit (t : Tx)
deriving DecidableEq

/-- The transaction carried by a submission. -/
def Submission.tx : Submission → Tx
  | .inbound t => t
  | .localSubmit t => t

/-- State effect of one submission. -/
def submitStep (H : String → String) (serialize : Tx → String) (now : Int)
    (st : NodeState) (s : Submission) : NodeState :=
  match s with
  | .inbound t => (handleNewTransaction H serialize now st t).1
  | .localSubmit t => (sendTransaction serialize st t).1

/-- Number of collected CHAIN responses reporting a given root. -/
def rootCount (entries : List ChainResp) (r : String) : Nat :=
  (entries.filter (fun e => e.root == r)).length

/-- Canonical serialization, modelled from the spec: stable field order
`(from, to, amount, nonce, timestamp, body, signature)` producing a
deterministic string; the implementation lives in the absent
src/Transaction.js.  Used only to instantiate the `serialize`/`txHash`
parameters in concrete witnesses. -/
def Tx.serializeModel (t : Tx) : String :=
  String.intercalate "," [t.from', t.to', toString t.amount, toString t.nonce,
    toString t.timestamp, t.body, jsBool t.sigOk]

/-! ## Helper lemmas on the dictionary embedding -/

theorem getEntry_setEntry_self {β : Type} (m : List (String × β)) (k : String) (v : β) :
    getEntry (setEntry m k v) k = some v := by
  induction m with
  | nil => simp [setEntry, getEntry]
  | cons p rest ih =>
    obtain ⟨k', v'⟩ := p
    by_cases h : k' = k
    · simp [setEntry, getEntry, h]
    · simp [setEntry, getEntry, h, ih]

theorem getEntry_setEntry_ne {β : Type} (m : List (String × β)) (k k' : String) (v : β)
    (h : k' ≠ k) : getEntry (setEntry m k v) k' = getEntry m k' := by
  have hks : ¬ (k = k') := fun hh => h hh.symm
  induction m with
  | nil => simp [setEntry, getEntry, hks]
  | cons p rest ih =>
    obtain ⟨k0, v0⟩ := p
    by_cases h0 : k0 = k
    · rw [h0]
      simp [setEntry, getEntry, hks]
    · by_cases h1 : k0 = k'
      · simp [setEntry, getEntry, h0, h1, hks, h]
      · simp [setEntry, getEntry, h0, h1, ih]

theorem getEntry_setEntry_isSome {β : Type} (m : List (String × β)) (k k' : String)
    (v : β) (h : (getEntry m k').isSome) : (getEntry (setEntry m k v) k').isSome := by
  by_cases hk : k' = k
  · subst hk
    simp [getEntry_setEntry_self]
  · rwa [getEntry_setEntry_ne m k k' v hk]

theorem ensureAcc_of_isSome (m : AccMap) (k : String)
    (h : (getEntry m k).isSome) : ensureAcc m k = m := by
  simp [ensureAcc, h]

theorem getEntry_ensureAcc_self (m : AccMap) (k : String) :
    getEntry (ensureAcc m k) k = some ((getEntry m k).getD Account.init) := by
  cases h : getEntry m k with
  | none => simp [ensureAcc, h, getEntry_setEntry_self]
  | some a => simp [ensureAcc, h]

theorem getEntry_ensureAcc_isSome (m : AccMap) (k k' : String)
    (h : (getEntry m k').isSome) : (getEntry (ensureAcc m k) k').isSome := by
  unfold ensureAcc
  by_cases hs : (getEntry m k).isSome
  · simpa [hs]
  · simp only [hs, if_false, Bool.false_eq_true]
    exact getEntry_setEntry_isSome m k k' Account.init h

theorem setEntry_of_notMem {β : Type} (m : List (String × β)) (k : String) (v : β)
    (h : ∀ p ∈ m, p.1 ≠ k) : setEntry m k v = m ++ [(k, v)] := by
  induction m with
  | nil => simp [setEntry]
  | cons p rest ih =>
    obtain ⟨k0, v0⟩ := p
    have h0 : k0 ≠ k := h (k0, v0) (by simp)
    simp only [setEntry, h0, beq_iff_eq, if_false, List.cons_append]
    rw [ih (fun q hq => h q (by simp [hq]))]

theorem getEntry_of_mem_nodup {β : Type} :
    ∀ (m : List (String × β)) (k : String) (v : β),
    (m.map (·.1)).Nodup → (k, v) ∈ m → getEntry m k = some v
  | [], _, _, _, hm => by simp at hm
  | (k0, v0) :: rest, k, v, hnd, hm => by
    simp only [List.map_cons, List.nodup_cons] at hnd
    rcases List.mem_cons.mp hm with h | h
    · cases h
      simp [getEntry]
    · have hne : k0 ≠ k := by
        intro hk
        subst hk
        exact hnd.1 (List.mem_map.mpr ⟨(k0, v), h, rfl⟩)
      simp only [getEntry, hne, beq_iff_eq, if_false]
      exact getEntry_of_mem_nodup rest k v hnd.2 h

/-! ## C10: the node's own key never enters its validator set -/

theorem mem_setAdd (V : List String) (d x : String) (h : x ∈ setAdd V d) :
    x ∈ V ∨ x = d := by
  by_cases hd : d ∈ V
  · simp only [setAdd, hd, if_pos] at h
    exact Or.inl h
  · simp only [setAdd, hd, if_false] at h
    simpa using h

theorem vStep_not_self (pk : String) (V : List String) (e : VEvent)
    (h : pk ∉ V) : pk ∉ vStep pk V e := by
  cases e with
  | validatorMsg staked d =>
    by_cases hs : staked
    · by_cases hd : d ≠ pk
      · simp only [vStep, hs, Bool.not_true, Bool.false_eq_true, if_false]
        rw [if_pos hd]
        intro hmem
        rcases mem_setAdd V d pk hmem with hV | hEq
        · exact h hV
        · exact hd hEq.symm
      · simpa [vStep, hs, hd] using h
    · simpa [vStep, hs] using h
  | helloValidatorMsg staked d =>
    by_cases hs : staked
    · by_cases hd : d ≠ pk
      · simp only [vStep, hs, Bool.not_true, Bool.false_eq_true, if_false]
        rw [if_pos hd]
        intro hmem
        rcases mem_setAdd V d pk hmem with hV | hEq
        · exact h hV
        · exact hd hEq.symm
      · simpa [vStep, hs, hd] using h
    · simpa [vStep, hs] using h
  | validatorsMsg staked => by_cases hs : staked <;> simp [vStep, hs, h]
  | socketClose => simp [vStep]
  | otherMsg => simpa [vStep] using h

/-- C10: the node's own public key is never a member of its validator set.
The VALIDATOR and HELLO_VALIDATOR handlers add the announced key only when it
differs from the node's own key, VALIDATORS and socket closes reset the set,
and every other event leaves it unchanged, so starting from the empty set
created by the constructor, `self ∉ validators` holds after every event. -/
theorem self_not_validator (pk : String) (events : List VEvent) :
    pk ∉ events.foldl (vStep pk) [] := by
  have general : ∀ (V : List String), pk ∉ V → pk ∉ events.foldl (vStep pk) V := by
    induction events with
    | nil => intro V h; simpa using h
    | cons e rest ih =>
      intro V h
      exact ih (vStep pk V e) (vStep_not_self pk V e h)
  exact general [] (by simp)

/-! ## C8: single slot, pending queue in arrival order -/

/-- C8: while a vote is live, every submission — inbound NEW_TRANSACTION or
local `sendTransaction` — is appended to `pendingTxs` in arrival order and the
live vote is untouched (no second slot is opened; `vote` is a single optional
field, so at most one candidate is ever set). -/
theorem single_slot_pending_order (H : String → String) (serialize : Tx → String)
    (now : Int) (st : NodeState) (subs : List Submission)
    (h : st.vote.isSome) :
    (subs.foldl (submitStep H serialize now) st).vote = st.vote ∧
    (subs.foldl (submitStep H serialize now) st).pendingTxs =
      st.pendingTxs ++ subs.map Submission.tx := by
  induction subs generalizing st with
  | nil => simp
  | cons s rest ih =>
    have hstep : (submitStep H serialize now st s).vote = st.vote ∧
        (submitStep H serialize now st s).pendingTxs = st.pendingTxs ++ [s.tx] := by
      cases s <;> simp [submitStep, handleNewTransaction, sendTransaction, h, Submission.tx]
    have h2 : (submitStep H serialize now st s).vote.isSome := by
      rw [hstep.1]; exact h
    obtain ⟨ih1, ih2⟩ := ih (submitStep H serialize now st s) h2
    refine ⟨?_, ?_⟩
    · rw [List.foldl_cons, ih1, hstep.1]
    · rw [List.foldl_cons, ih2, hstep.2]
      simp

/-- Witness for C8 at a concrete state: with a live vote, an inbound and a
local submission land on the pending queue in arrival order. -/
theorem single_slot_pending_order_witness :
    (([Submission.inbound ⟨"C", "D", 300, 0, 0, "n", true⟩,
       Submission.localSubmit ⟨"E", "F", 400, 0, 0, "o", true⟩]).foldl
      (submitStep (fun s => s) Tx.serializeModel 0)
      ⟨"P", some ⟨"A", "B", 500, 0, 0, "m", true⟩, [], [], true, [], [],
        MerkleTree.init, []⟩).vote = some ⟨"A", "B", 500, 0, 0, "m", true⟩ ∧
    (([Submission.inbound ⟨"C", "D", 300, 0, 0, "n", true⟩,
       Submission.localSubmit ⟨"E", "F", 400, 0, 0, "o", true⟩]).foldl
      (submitStep (fun s => s) Tx.serializeModel 0)
      ⟨"P", some ⟨"A", "B", 500, 0, 0, "m", true⟩, [], [], true, [], [],
        MerkleTree.init, []⟩).pendingTxs =
      [⟨"C", "D", 300, 0, 0, "n", true⟩, ⟨"E", "F", 400, 0, 0, "o", true⟩] :=
  single_slot_pending_order (fun s => s) Tx.serializeModel 0
    ⟨"P", some ⟨"A", "B", 500, 0, 0, "m", true⟩, [], [], true, [], [],
      MerkleTree.init, []⟩
    [Submission.inbound ⟨"C", "D", 300, 0, 0, "n", true⟩,
     Submission.localSubmit ⟨"E", "F", 400, 0, 0, "o", true⟩]
    (by decide)

/-! ## C4: the IDLE to VOTING transition -/

/-- C4 counterexample: a local `sendTransaction` with no live vote broadcasts
only a NEW_TRANSACTION message — no TRANSACTION vote message (and hence no
`valid`/`root` fields) is broadcast, contrary to the claim that both entry
points broadcast `TRANSACTION{ transaction, valid, root }`. -/
theorem submit_broadcast_cex :
    ((sendTransaction Tx.serializeModel
      ⟨"P", none, [], [], false, [], [], MerkleTree.init, []⟩
      ⟨"A", "B", 500, 0, 0, "m", true⟩).2).filter Msg.isTransactionVote = [] ∧
    (sendTransaction Tx.serializeModel
      ⟨"P", none, [], [], false, [], [], MerkleTree.init, []⟩
      ⟨"A", "B", 500, 0, 0, "m", true⟩).2 =
      [Msg.NEW_TRANSACTION "A,B,500,0,0,m,true"] ∧
    ((sendTransaction Tx.serializeModel
      ⟨"P", none, [], [], false, [], [], MerkleTree.init, []⟩
      ⟨"A", "B", 500, 0, 0, "m", true⟩).1).vote =
      some ⟨"A", "B", 500, 0, 0, "m", true⟩ := by
  decide

/-- C4 amended: with no live vote, an inbound NEW_TRANSACTION makes the
transaction the live vote, clears `consensus`, arms the vote timeout and
broadcasts `TRANSACTION{ transaction, valid: transactionValid(T, true)[0],
root: merkle() }`; a local `sendTransaction` also makes it the live vote,
clears `consensus` and arms the timeout, but broadcasts
`NEW_TRANSACTION{ serialized T }` instead of a TRANSACTION vote. -/
theorem idle_to_voting_amended (H : String → String) (serialize : Tx → String)
    (now : Int) (st : NodeState) (t : Tx) (h : st.vote = none) :
    handleNewTransaction H serialize now st t =
      ({ st with vote := some t, consensus := [], voteTimeoutArmed := true },
       [Msg.TRANSACTION (serialize t)
         (VoteVal.bool (transactionValid st.accounts st.chainTransactions.length
           st.pendingTxs.length now t true).1)
         (st.tree.getRoot H)]) ∧
    sendTransaction serialize st t =
      ({ st with vote := some t, consensus := [], voteTimeoutArmed := true },
       [Msg.NEW_TRANSACTION (serialize t)]) := by
  constructor <;> simp [handleNewTransaction, sendTransaction, h]

/-- Witness for the amended C4 at a concrete idle state. -/
theorem idle_to_voting_amended_witness :
    handleNewTransaction (fun s => s) Tx.serializeModel 0
      ⟨"P", none, [], [], false, [], [], MerkleTree.init, []⟩
      ⟨"A", "B", 500, 0, 0, "m", true⟩ =
      (⟨"P", some ⟨"A", "B", 500, 0, 0, "m", true⟩, [], [], true, [], [],
         MerkleTree.init, []⟩,
       [Msg.TRANSACTION "A,B,500,0,0,m,true" (VoteVal.bool false) "0"]) ∧
    sendTransaction Tx.serializeModel
      ⟨"P", none, [], [], false, [], [], MerkleTree.init, []⟩
      ⟨"A", "B", 500, 0, 0, "m", true⟩ =
      (⟨"P", some ⟨"A", "B", 500, 0, 0, "m", true⟩, [], [], true, [], [],
         MerkleTree.init, []⟩,
       [Msg.NEW_TRANSACTION "A,B,500,0,0,m,true"]) :=
  idle_to_voting_amended (fun s => s) Tx.serializeModel 0
    ⟨"P", none, [], [], false, [], [], MerkleTree.init, []⟩
    ⟨"A", "B", 500, 0, 0, "m", true⟩ rfl

/-! ## C7: replay determinism -/

theorem transactionValid_pending_indep (accounts : AccMap) (chainLen p p' : Nat)
    (now : Int) (t : Tx) :
    transactionValid accounts chainLen p now t false =
    transactionValid accounts chainLen p' now t false := by
  simp [transactionValid]

theorem replayAccepts_pending_indep (accounts : AccMap) (chainLen p p' : Nat)
    (now : Int) (i : Nat) (t : Tx) :
    replayAccepts accounts chainLen p now i t =
    replayAccepts accounts chainLen p' now i t := by
  unfold replayAccepts
  rw [transactionValid_pending_indep accounts chainLen p p' now t]

theorem createAccStep_pending_indep (H : String → String) (txHash : Tx → String)
    (now : Int) (chainLen p p' : Nat) (st : RState) (r : Record) :
    createAccStep H txHash now chainLen p st r =
    createAccStep H txHash now chainLen p' st r := by
  simp only [createAccStep,
    replayAccepts_pending_indep st.accounts chainLen p p' now st.i r.transaction]

/-- C7 counterexample: the replay consults `Date.now()` through
`transactionValid`'s future-timestamp check, so two runs of the replay on the
same record sequence at different wall-clock times produce different accounts
mappings — the second record is skipped at time 0 (its timestamp lies more
than `timestampRange` in the future) but applied at time 1000000. -/
theorem replay_time_dependent_cex :
    (replayChain (fun s => s) Tx.serializeModel 0
      [⟨⟨"GENESIS", "A", 1100, 0, 0, "GENESIS", false⟩, [], "x"⟩,
       ⟨⟨"A", "B", 200, 0, 1000000, "zz", true⟩, [], "x"⟩]).accounts ≠
    (replayChain (fun s => s) Tx.serializeModel 1000000
      [⟨⟨"GENESIS", "A", 1100, 0, 0, "GENESIS", false⟩, [], "x"⟩,
       ⟨⟨"A", "B", 200, 0, 1000000, "zz", true⟩, [], "x"⟩]).accounts := by
  decide

/-- C7 amended: the replay result is a pure function of the record sequence,
the (fixed) hash/serialization primitives and the wall-clock time: it is
independent of every other piece of node state — in particular of the pending
queue length that `transactionValid` would consult in live mode — so two nodes
replaying the same records at the same time converge on identical accounts and
identical Merkle trees (hence identical roots).  It is not independent of the
wall-clock time itself. -/
theorem replay_deterministic_amended (H : String → String) (txHash : Tx → String)
    (now : Int) (chainLen : Nat) (p1 p2 : Nat) (init : RState)
    (records : List Record) :
    createAccState H txHash now chainLen p1 init records =
    createAccState H txHash now chainLen p2 init records := by
  induction records generalizing init with
  | nil => rfl
  | cons r rest ih =>
    simp only [createAccState, List.foldl_cons] at *
    rw [createAccStep_pending_indep H txHash now chainLen p1 p2 init r]
    exact ih _

/-! ## C3: the genesis bypass -/

/-- C3 counterexample: a genesis-window record whose transaction has
`body == "GENESIS"` but `from ≠ "GENESIS"` is accepted (the record is applied:
`i` advances to 1) and its `from` account IS debited by `amount` — the replay
leaves account "A" at balance −200.  The claim that such records "do not debit
`from`" holds only for `from == "GENESIS"`. -/
theorem genesis_body_debit_cex :
    getEntry (replayChain (fun s => s) Tx.serializeModel 0
      [⟨⟨"A", "B", 200, 0, 0, "GENESIS", false⟩, [], "x"⟩]).accounts "A" =
      some ⟨-200, 0, 0⟩ ∧
    (replayChain (fun s => s) Tx.serializeModel 0
      [⟨⟨"A", "B", 200, 0, 0, "GENESIS", false⟩, [], "x"⟩]).i = 1 := by
  decide

/-- C3 amended: inside the genesis window a record with `body == "GENESIS"` is
accepted by the replay gate regardless of whether its signature verifies, and
the debit block skips the debit exactly when `from == "GENESIS"`; when
`from ≠ "GENESIS"` the `from` account is created if missing and debited by
`amount`. -/
theorem genesis_bypass_amended (accounts : AccMap) (chainLen pendingLen : Nat)
    (now : Int) (i : Nat) (t : Tx)
    (h1 : i < genesisWindow) (h2 : t.body = "GENESIS") :
    replayAccepts accounts chainLen pendingLen now i t = true ∧
    (t.from' = "GENESIS" → debitPhase accounts t i = accounts) ∧
    (t.from' ≠ "GENESIS" →
      getEntry (debitPhase accounts t i) t.from' =
        some { (getEntry accounts t.from').getD Account.init with
               balance := ((getEntry accounts t.from').getD Account.init).balance
                 - t.amount }) := by
  refine ⟨?_, ?_, ?_⟩
  · simp [replayAccepts, h1, h2]
  · intro hf
    simp [debitPhase, hf, h1]
  · intro hf
    have hcond : (t.from' == "GENESIS" && decide (i < genesisWindow)) = false := by
      simp [hf]
    simp only [debitPhase, hcond, Bool.false_eq_true, if_false]
    rw [getEntry_setEntry_self, getEntry_ensureAcc_self]
    simp

/-- Witness for the amended C3: a concrete unsigned genesis-window record with
`from = "X" ≠ "GENESIS"` is accepted yet debited. -/
theorem genesis_bypass_amended_witness :
    replayAccepts [] 9 0 0 0 ⟨"X", "B", 200, 0, 0, "GENESIS", false⟩ = true ∧
    getEntry (debitPhase [] ⟨"X", "B", 200, 0, 0, "GENESIS", false⟩ 0) "X" =
      some ⟨-200, 0, 0⟩ :=
  ⟨(genesis_bypass_amended [] 9 0 0 0 ⟨"X", "B", 200, 0, 0, "GENESIS", false⟩
      (by decide) rfl).1,
   (genesis_bypass_amended [] 9 0 0 0 ⟨"X", "B", 200, 0, 0, "GENESIS", false⟩
      (by decide) rfl).2.2 (by decide)⟩

/-! ## C2: the Merkle root -/

theorem getLastD_ne_nil {α : Type} (l : List α) (d1 d2 : α) (h : l ≠ []) :
    l.getLastD d1 = l.getLastD d2 := by
  cases l with
  | nil => exact absurd rfl h
  | cons a as => rfl

theorem addCarry_one (H : String → String) (x : String)
    (rest : List (List String)) : addCarry H ([x] :: rest) = [x] :: rest := by
  unfold addCarry
  simp

theorem addCarry_two_nil (H : String → String) (x y : String) :
    addCarry H [[x, y]] = [[], [H (x ++ y)]] := by
  unfold addCarry
  simp

theorem addCarry_two_cons (H : String → String) (x y : String)
    (next : List String) (rr : List (List String)) :
    addCarry H ([x, y] :: next :: rr) =
      [] :: addCarry H ((next ++ [H (x ++ y)]) :: rr) := by
  conv_lhs => rw [addCarry]
  simp

theorem addCarry_ok (H : String → String) :
    ∀ (rest : List (List String)) (nodes : List String),
    (∀ l ∈ rest, l.length ≤ 1) →
    (rest ≠ [] → (rest.getLastD []).length = 1) →
    1 ≤ nodes.length → nodes.length ≤ 2 →
    (∀ l ∈ addCarry H (nodes :: rest), l.length ≤ 1) ∧
    addCarry H (nodes :: rest) ≠ [] ∧
    ((addCarry H (nodes :: rest)).getLastD []).length = 1 := by
  intro rest
  induction rest with
  | nil =>
    intro nodes _ _ h1 h2
    match nodes, h1, h2 with
    | [x], _, _ =>
      rw [addCarry_one]
      refine ⟨?_, by simp, by simp⟩
      intro l hl
      simp at hl
      simp [hl]
    | [x, y], _, _ =>
      rw [addCarry_two_nil]
      refine ⟨?_, by simp, by simp⟩
      intro l hl
      simp at hl
      rcases hl with h | h <;> simp [h]
  | cons next rr ih =>
    intro nodes hle hlast h1 h2
    have hnextle : next.length ≤ 1 := hle next (by simp)
    have hrrle : ∀ l ∈ rr, l.length ≤ 1 := fun l hl => hle l (by simp [hl])
    have hrrlast : rr ≠ [] → (rr.getLastD []).length = 1 := by
      intro hrr
      have := hlast (by simp)
      rw [List.getLastD_cons, getLastD_ne_nil rr next [] hrr] at this
      exact this
    match nodes, h1, h2 with
    | [x], _, _ =>
      rw [addCarry_one]
      refine ⟨?_, by simp, ?_⟩
      · intro l hl
        rcases List.mem_cons.mp hl with h | h
        · simp [h]
        · exact hle l h
      · rw [List.getLastD_cons, getLastD_ne_nil (next :: rr) [x] [] (by simp)]
        exact hlast (by simp)
    | [x, y], _, _ =>
      obtain ⟨rih1, rih2, rih3⟩ := ih (next ++ [H (x ++ y)]) hrrle hrrlast
        (by simp) (by simp; omega)
      rw [addCarry_two_cons]
      refine ⟨?_, by simp, ?_⟩
      · intro l hl
        rcases List.mem_cons.mp hl with h | h
        · simp [h]
        · exact rih1 l h
      · rw [List.getLastD_cons,
          getLastD_ne_nil (addCarry H ((next ++ [H (x ++ y)]) :: rr)) _ [] rih2]
        exact rih3

theorem merkleInv_init : MerkleInv MerkleTree.init := by
  refine ⟨?_, by simp [MerkleTree.init], fun _ => rfl, fun h => absurd rfl h⟩
  intro l hl
  simp [MerkleTree.init] at hl
  simp [hl]

theorem merkleInv_add (H : String → String) (t : MerkleTree) (x : String)
    (h : MerkleInv t) : MerkleInv (t.add H x) := by
  obtain ⟨hle, hne, hinit, hlast⟩ := h
  obtain ⟨l0, r, hlv⟩ : ∃ l0 r, t.levels = l0 :: r := by
    cases hl : t.levels with
    | nil => exact absurd hl hne
    | cons a b => exact ⟨a, b, rfl⟩
  have hl0 : l0.length ≤ 1 := hle l0 (by simp [hlv])
  have hrle : ∀ l ∈ r, l.length ≤ 1 := fun l hl => hle l (by simp [hlv, hl])
  have hrlast : r ≠ [] → (r.getLastD []).length = 1 := by
    intro hr
    by_cases hleaves : t.leaves = []
    · have := hinit hleaves
      rw [hlv] at this
      cases this
      exact absurd rfl hr
    · have := hlast hleaves
      rw [hlv, List.getLastD_cons, getLastD_ne_nil r l0 [] hr] at this
      exact this
  have hmain := addCarry_ok H r (l0 ++ [x]) hrle hrlast (by simp)
    (by simp; omega)
  refine ⟨?_, ?_, ?_, ?_⟩
  · intro l hl
    simp only [MerkleTree.add, hlv] at hl
    exact hmain.1 l hl
  · simp only [MerkleTree.add, hlv]
    exact hmain.2.1
  · intro hcontra
    simp [MerkleTree.add] at hcontra
  · intro _
    simp only [MerkleTree.add, hlv]
    exact hmain.2.2

theorem merkleInv_foldl (H : String → String) (txs : List String) :
    ∀ (t : MerkleTree), MerkleInv t → MerkleInv (txs.foldl (MerkleTree.add H) t) := by
  induction txs with
  | nil => intro t h; simpa using h
  | cons x rest ih =>
    intro t h
    simpa using ih (t.add H x) (merkleInv_add H t x h)

theorem merkleInv_addAll (H : String → String) (txs : List String) :
    MerkleInv (addAll H txs) :=
  merkleInv_foldl H txs MerkleTree.init merkleInv_init

theorem getRootLoop_single (H : String → String) (r : String) :
    getRootLoop H [r] = [r] := by
  unfold getRootLoop
  simp

theorem specRootFold_single (H : String → String) (r : String) :
    specRootFold H [r] = [r] := by
  unfold specRootFold
  simp

theorem getRoot_eq_spec (H : String → String) (t : MerkleTree)
    (h : MerkleInv t) : t.getRoot H = specGetRoot H t := by
  by_cases hleaves : t.leaves = []
  · simp [MerkleTree.getRoot, specGetRoot, hleaves]
  · have hlen : (t.leaves.length == 0) = false := by
      simp [hleaves]
    have htop : ((t.levels.getLastD []).length = 1) := h.2.2.2 hleaves
    obtain ⟨r, hr⟩ : ∃ r, t.levels.getLastD [] = [r] := by
      cases htl : t.levels.getLastD [] with
      | nil => rw [htl] at htop; simp at htop
      | cons a b =>
        rw [htl] at htop
        simp at htop
        exact ⟨a, by simp [htop]⟩
    simp only [MerkleTree.getRoot, specGetRoot, hlen, Bool.false_eq_true,
      if_false, hr, getRootLoop_single, specRootFold_single]

/-- C2: for every sequence of transactions added to the Merkle tree,
`getRoot()` returns exactly what the specified pairwise fold of the top-most
partial level computes — each adjacent pair hashed as the concatenation, the
last node duplicated at odd length, repeated until one node remains — and the
empty tree returns `hash('0')`.  (On every reachable tree the top-most level
holds exactly one node, so both sides return that node.) -/
theorem merkle_root_spec (H : String → String) (txs : List String) :
    (addAll H txs).getRoot H = specGetRoot H (addAll H txs) :=
  getRoot_eq_spec H (addAll H txs) (merkleInv_addAll H txs)

/-! ## C9: chain-sync plurality and adoption -/

theorem getD_setEntry_self (rc : List (String × Nat)) (k : String) (v : Nat) :
    ((getEntry (setEntry rc k v) k).getD 0) = v := by
  rw [getEntry_setEntry_self]
  rfl

theorem getD_setEntry_ne (rc : List (String × Nat)) (k k' : String) (v : Nat)
    (h : k' ≠ k) :
    ((getEntry (setEntry rc k v) k').getD 0) = ((getEntry rc k').getD 0) := by
  rw [getEntry_setEntry_ne rc k k' v h]

theorem rootCount_cons (e : ChainResp) (rest : List ChainResp) (r : String) :
    rootCount (e :: rest) r =
      (if e.root = r then 1 else 0) + rootCount rest r := by
  by_cases h : e.root = r
  · simp [rootCount, h]
    omega
  · simp [rootCount, h]

theorem pluralityFold_aux :
    ∀ (entries : List ChainResp) (rc : List (String × Nat)) (m : String),
    (∀ r, ((getEntry rc r).getD 0) ≤ ((getEntry rc m).getD 0)) →
    (∀ r, ((getEntry (entries.foldl pluralityStep (rc, m)).1 r).getD 0) =
      ((getEntry rc r).getD 0) + rootCount entries r) ∧
    (∀ r, ((getEntry (entries.foldl pluralityStep (rc, m)).1 r).getD 0) ≤
      ((getEntry (entries.foldl pluralityStep (rc, m)).1
        (entries.foldl pluralityStep (rc, m)).2).getD 0)) ∧
    ((entries.foldl pluralityStep (rc, m)).2 = m ∨
      (entries.foldl pluralityStep (rc, m)).2 ∈ entries.map (·.root)) := by
  intro entries
  induction entries with
  | nil =>
    intro rc m hmax
    exact ⟨fun r => by simp [rootCount], hmax, Or.inl rfl⟩
  | cons e rest ih =>
    intro rc m hmax
    rw [List.foldl_cons]
    set c := ((getEntry rc e.root).getD 0) + 1 with hc
    set rc1 := setEntry rc e.root c with hrc1
    have hrc1get : ∀ r, ((getEntry rc1 r).getD 0) =
        if e.root = r then c else ((getEntry rc r).getD 0) := by
      intro r
      by_cases hr : e.root = r
      · rw [if_pos hr, hrc1, ← hr, getD_setEntry_self]
      · rw [if_neg hr, hrc1, getD_setEntry_ne rc e.root r c (fun hh => hr hh.symm)]
    have hstep : pluralityStep (rc, m) e =
        (rc1, if c > ((getEntry rc1 m).getD 0) then e.root else m) := by
      simp only [pluralityStep, hrc1, hc]
      split <;> rfl
    rw [hstep]
    have hmono : ∀ r', ((getEntry rc r').getD 0) ≤ ((getEntry rc1 r').getD 0) := by
      intro r'
      rw [hrc1get r']
      by_cases hr' : e.root = r'
      · rw [if_pos hr', hc, hr']
        omega
      · rw [if_neg hr']
    by_cases hcm : c > ((getEntry rc1 m).getD 0)
    · rw [if_pos hcm]
      have hmax1 : ∀ r, ((getEntry rc1 r).getD 0) ≤ ((getEntry rc1 e.root).getD 0) := by
        intro r
        rw [hrc1get e.root, if_pos rfl]
        rw [hrc1get r]
        by_cases hr : e.root = r
        · rw [if_pos hr]
        · rw [if_neg hr]
          calc ((getEntry rc r).getD 0) ≤ ((getEntry rc m).getD 0) := hmax r
            _ ≤ ((getEntry rc1 m).getD 0) := hmono m
            _ ≤ c := Nat.le_of_lt hcm
      obtain ⟨ih1, ih2, ih3⟩ := ih rc1 e.root hmax1
      refine ⟨?_, ih2, ?_⟩
      · intro r
        rw [ih1 r, hrc1get r, rootCount_cons]
        by_cases hr : e.root = r
        · rw [if_pos hr, if_pos hr, hc, hr]
          omega
        · rw [if_neg hr, if_neg hr]
          omega
      · rcases ih3 with h | h
        · exact Or.inr (by simp [h])
        · exact Or.inr (by simp [h])
    · rw [if_neg hcm]
      have hmax1 : ∀ r, ((getEntry rc1 r).getD 0) ≤ ((getEntry rc1 m).getD 0) := by
        intro r
        rw [hrc1get r]
        by_cases hr : e.root = r
        · rw [if_pos hr]
          exact Nat.le_of_not_lt hcm
        · rw [if_neg hr]
          exact Nat.le_trans (hmax r) (hmono m)
      obtain ⟨ih1, ih2, ih3⟩ := ih rc1 m hmax1
      refine ⟨?_, ih2, ?_⟩
      · intro r
        rw [ih1 r, hrc1get r, rootCount_cons]
        by_cases hr : e.root = r
        · rw [if_pos hr, if_pos hr, hc, hr]
          omega
        · rw [if_neg hr, if_neg hr]
          omega
      · rcases ih3 with h | h
        · exact Or.inl h
        · exact Or.inr (by simp [h])

theorem pluralityRoot_spec (e0 : ChainResp) (rest : List ChainResp) :
    (∀ r, rootCount (e0 :: rest) r ≤
      rootCount (e0 :: rest) (pluralityFold (e0 :: rest)).2) ∧
    (pluralityFold (e0 :: rest)).2 ∈ (e0 :: rest).map (·.root) := by
  have hstep0 : pluralityStep (([] : List (String × Nat)), "") e0 =
      ([(e0.root, 1)], e0.root) := by
    by_cases h0 : e0.root = ""
    · simp [pluralityStep, getEntry, setEntry, h0]
    · simp [pluralityStep, getEntry, setEntry, h0]
  have hmax0 : ∀ r, ((getEntry [(e0.root, 1)] r).getD 0) ≤
      ((getEntry [(e0.root, 1)] e0.root).getD 0) := by
    intro r
    simp only [getEntry]
    by_cases hr : e0.root = r <;> simp [hr]
  obtain ⟨h1, h2, h3⟩ := pluralityFold_aux rest [(e0.root, 1)] e0.root hmax0
  have hcountD : ∀ r, ((getEntry [(e0.root, 1)] r).getD 0) =
      if e0.root = r then 1 else 0 := by
    intro r
    simp only [getEntry]
    by_cases hr : e0.root = r <;> simp [hr]
  have hcount : ∀ r,
      ((getEntry (rest.foldl pluralityStep ([(e0.root, 1)], e0.root)).1 r).getD 0) =
      rootCount (e0 :: rest) r := by
    intro r
    rw [h1 r, hcountD r, rootCount_cons]
  have hfold : pluralityFold (e0 :: rest) =
      rest.foldl pluralityStep ([(e0.root, 1)], e0.root) := by
    unfold pluralityFold
    rw [List.foldl_cons, hstep0]
  refine ⟨?_, ?_⟩
  · intro r
    rw [hfold, ← hcount r, ← hcount _]
    exact h2 r
  · rw [hfold]
    rcases h3 with h | h
    · rw [h]
      simp
    · simp [h]

/-- C9: once the collected CHAIN responses reach `|validators| − 1`, the node
picks the root reported by the largest number of peers (the selected root's
count is maximal and it is among the reported roots), takes the first response
carrying it, and adopts its transaction list iff it is at least as long as the
local chain — zeroing `accounts`, clearing `wantChain`, installing the list
and re-deriving the account state by replaying it through `createAccState`;
a shorter list leaves the state untouched. -/
theorem chain_sync_adoption (H : String → String) (txHash : Tx → String)
    (now : Int) (vsize : Nat) (entries : List ChainResp) (st : SyncState)
    (e : ChainResp)
    (hw : st.wantChain = true)
    (herr : st.err = none)
    (hthr : entries.length + 1 ≥ vsize)
    (hfind : entries.find? (fun x => x.root == (pluralityFold entries).2) = some e) :
    (∀ r, rootCount entries r ≤ rootCount entries (pluralityFold entries).2) ∧
    (pluralityFold entries).2 ∈ entries.map (·.root) ∧
    (e.transactions.length ≥ st.chainTransactions.length →
      chainSyncTally H txHash now vsize entries st =
        { chainTransactions := e.transactions,
          accounts := (createAccState H txHash now e.transactions.length 0
            ⟨[], st.tree, 0, none⟩ e.transactions).accounts,
          tree := (createAccState H txHash now e.transactions.length 0
            ⟨[], st.tree, 0, none⟩ e.transactions).tree,
          wantChain := false,
          err := (createAccState H txHash now e.transactions.length 0
            ⟨[], st.tree, 0, none⟩ e.transactions).err }) ∧
    (e.transactions.length < st.chainTransactions.length →
      chainSyncTally H txHash now vsize entries st = st) := by
  obtain ⟨e0, rest, hent⟩ : ∃ e0 rest, entries = e0 :: rest := by
    cases hcase : entries with
    | nil =>
      rw [hcase] at hfind
      simp [List.find?] at hfind
    | cons a b => exact ⟨a, b, rfl⟩
  have hplur := pluralityRoot_spec e0 rest
  refine ⟨hent ▸ hplur.1, hent ▸ hplur.2, ?_, ?_⟩
  · intro hlong
    unfold chainSyncTally
    rw [hw]
    simp only [Bool.not_true, Bool.false_eq_true, if_false]
    rw [if_pos hthr, hfind]
    dsimp only
    rw [if_pos hlong]
    by_cases hzero : e.transactions.length = 0
    · have hnil : e.transactions = [] := List.length_eq_zero.mp hzero
      simp only [hnil, List.length_nil]
      rw [show ((0 : Nat) == 0) = true from rfl]
      simp only [if_true]
      rw [show createAccState H txHash now 0 0 ⟨[], st.tree, 0, none⟩ [] =
        ⟨[], st.tree, 0, none⟩ from rfl]
      rw [herr]
    · have hz : (e.transactions.length == 0) = false := by
        simp [hzero]
      simp only [hz, Bool.false_eq_true, if_false]
  · intro hshort
    unfold chainSyncTally
    rw [hw]
    simp only [Bool.not_true, Bool.false_eq_true, if_false]
    rw [if_pos hthr, hfind]
    dsimp only
    rw [if_neg (Nat.not_le.mpr hshort)]

/-- Witness for C9 at a concrete sync: three responses with roots R, R, S and
`|validators| = 4`; the plurality root R wins, the length-1 chain is adopted
over the empty local chain and the account state is re-derived. -/
theorem chain_sync_adoption_witness :
    rootCount [⟨"R", [⟨⟨"GENESIS", "A", 1100, 0, 0, "GENESIS", false⟩, [], "x"⟩]⟩,
      ⟨"R", [⟨⟨"GENESIS", "A", 1100, 0, 0, "GENESIS", false⟩, [], "x"⟩]⟩,
      ⟨"S", []⟩] "S" ≤
    rootCount [⟨"R", [⟨⟨"GENESIS", "A", 1100, 0, 0, "GENESIS", false⟩, [], "x"⟩]⟩,
      ⟨"R", [⟨⟨"GENESIS", "A", 1100, 0, 0, "GENESIS", false⟩, [], "x"⟩]⟩,
      ⟨"S", []⟩]
      (pluralityFold [⟨"R", [⟨⟨"GENESIS", "A", 1100, 0, 0, "GENESIS", false⟩, [], "x"⟩]⟩,
        ⟨"R", [⟨⟨"GENESIS", "A", 1100, 0, 0, "GENESIS", false⟩, [], "x"⟩]⟩,
        ⟨"S", []⟩]).2 ∧
    (chainSyncTally (fun s => s) Tx.serializeModel 0 4
      [⟨"R", [⟨⟨"GENESIS", "A", 1100, 0, 0, "GENESIS", false⟩, [], "x"⟩]⟩,
       ⟨"R", [⟨⟨"GENESIS", "A", 1100, 0, 0, "GENESIS", false⟩, [], "x"⟩]⟩,
       ⟨"S", []⟩]
      ⟨[], [], MerkleTree.init, true, none⟩).chainTransactions =
      [⟨⟨"GENESIS", "A", 1100, 0, 0, "GENESIS", false⟩, [], "x"⟩] ∧
    (chainSyncTally (fun s => s) Tx.serializeModel 0 4
      [⟨"R", [⟨⟨"GENESIS", "A", 1100, 0, 0, "GENESIS", false⟩, [], "x"⟩]⟩,
       ⟨"R", [⟨⟨"GENESIS", "A", 1100, 0, 0, "GENESIS", false⟩, [], "x"⟩]⟩,
       ⟨"S", []⟩]
      ⟨[], [], MerkleTree.init, true, none⟩).accounts = [("A", ⟨1000, 0, 0⟩)] ∧
    (chainSyncTally (fun s => s) Tx.serializeModel 0 4
      [⟨"R", [⟨⟨"GENESIS", "A", 1100, 0, 0, "GENESIS", false⟩, [], "x"⟩]⟩,
       ⟨"R", [⟨⟨"GENESIS", "A", 1100, 0, 0, "GENESIS", false⟩, [], "x"⟩]⟩,
       ⟨"S", []⟩]
      ⟨[], [], MerkleTree.init, true, none⟩).wantChain = false := by
  have happ := chain_sync_adoption (fun s => s) Tx.serializeModel 0 4
    [⟨"R", [⟨⟨"GENESIS", "A", 1100, 0, 0, "GENESIS", false⟩, [], "x"⟩]⟩,
     ⟨"R", [⟨⟨"GENESIS", "A", 1100, 0, 0, "GENESIS", false⟩, [], "x"⟩]⟩,
     ⟨"S", []⟩]
    ⟨[], [], MerkleTree.init, true, none⟩
    ⟨"R", [⟨⟨"GENESIS", "A", 1100, 0, 0, "GENESIS", false⟩, [], "x"⟩]⟩
    rfl rfl (by decide) (by decide)
  have hlong := happ.2.2.1 (by decide)
  refine ⟨happ.1 "S", ?_, ?_, ?_⟩
  · rw [hlong]
  · rw [hlong]
    decide
  · rw [hlong]

/-! ## C1: commit path versus replay path -/

theorem bne_true_eq_beq_false (b : Bool) : (b != true) = (b == false) := by
  cases b <;> rfl

theorem commitRewardLoop_isSome (table : List (String × ConsVote)) (n : Nat)
    (result : Bool) :
    ∀ (keys : List String) (accs : AccMap) (k : String),
    (getEntry accs k).isSome →
    (getEntry (commitRewardLoop table n result accs keys) k).isSome := by
  intro keys
  induction keys with
  | nil => intro accs k h; exact h
  | cons v rest ih =>
    intro accs k h
    simp only [commitRewardLoop]
    cases hv : getEntry accs v with
    | none => exact ih accs k h
    | some a =>
      refine ih _ k ?_
      split
      · exact getEntry_setEntry_isSome accs v k _ h
      · exact getEntry_setEntry_isSome accs v k _ h

/-- On a vote list whose every key has an account and whose recorded booleans
agree with the consensus table, the commit-path reward loop (iterating the key
list, skipping missing accounts, comparing against `result = true`) and the
replay-path reward loop (iterating the recorded pairs, throwing on missing
accounts, comparing against `false`) compute the same accounts, and the
replay loop does not throw. -/
theorem reward_loops_agree (table : List (String × ConsVote)) (n : Nat) :
    ∀ (vs : List (String × Bool)) (accs : AccMap),
    (∀ p ∈ vs, (getEntry accs p.1).isSome) →
    (∀ p ∈ vs, ((getEntry table p.1).map ConsVote.valid).getD false = p.2) →
    commitRewardLoop table n true accs (vs.map (·.1)) = (rewardLoop n accs vs).1 ∧
    (rewardLoop n accs vs).2 = none := by
  intro vs
  induction vs with
  | nil => intro accs _ _; exact ⟨rfl, rfl⟩
  | cons p rest ih =>
    intro accs hsome hlook
    obtain ⟨k, b⟩ := p
    obtain ⟨a, ha⟩ := Option.isSome_iff_exists.mp (hsome (k, b) (by simp))
    have hlk : ((getEntry table k).map ConsVote.valid).getD false = b :=
      hlook (k, b) (by simp)
    simp only [List.map_cons, commitRewardLoop, rewardLoop, ha, hlk,
      bne_true_eq_beq_false]
    have hsome1 : ∀ q ∈ rest,
        (getEntry (if (b == false) = true
          then setEntry accs k { a with stake := a.stake - fine }
          else setEntry accs k { a with balance := a.balance + (fee / (n : Int) + 1) })
          q.1).isSome := by
      intro q hq
      split
      · exact getEntry_setEntry_isSome accs k q.1 _ (hsome q (by simp [hq]))
      · exact getEntry_setEntry_isSome accs k q.1 _ (hsome q (by simp [hq]))
    have hlook1 : ∀ q ∈ rest,
        ((getEntry table q.1).map ConsVote.valid).getD false = q.2 :=
      fun q hq => hlook q (by simp [hq])
    cases hb : b with
    | false =>
      simp only [hb] at hsome1 ⊢
      simpa using ih (setEntry accs k { a with stake := a.stake - fine })
        (by simpa using hsome1) hlook1
    | true =>
      simp only [hb] at hsome1 ⊢
      simpa using ih
        (setEntry accs k { a with balance := a.balance + (fee / (n : Int) + 1) })
        (by simpa using hsome1) hlook1

theorem rewardLoop_no_err (n : Nat) :
    ∀ (vs : List (String × Bool)) (accs : AccMap),
    (∀ p ∈ vs, (getEntry accs p.1).isSome) →
    (rewardLoop n accs vs).2 = none := by
  intro vs
  induction vs with
  | nil => intro accs _; rfl
  | cons p rest ih =>
    intro accs hsome
    obtain ⟨k, b⟩ := p
    obtain ⟨a, ha⟩ := Option.isSome_iff_exists.mp (hsome (k, b) (by simp))
    simp only [rewardLoop, ha]
    refine ih _ ?_
    intro q hq
    split
    · exact getEntry_setEntry_isSome accs k q.1 _ (hsome q (by simp [hq]))
    · exact getEntry_setEntry_isSome accs k q.1 _ (hsome q (by simp [hq]))

/-! ## Close-out lemmas shared by C5 and C6 -/

theorem closeOut_preserves (H : String → String) (serialize : Tx → String)
    (now : Int) (st : NodeState) :
    ((closeOut H serialize now st).1).accounts = st.accounts ∧
    ((closeOut H serialize now st).1).chainTransactions = st.chainTransactions ∧
    ((closeOut H serialize now st).1).tree = st.tree := by
  cases h : st.pendingTxs <;> simp [closeOut, h]

theorem closeOut_spec (H : String → String) (serialize : Tx → String)
    (now : Int) (st : NodeState) :
    ((closeOut H serialize now st).1).voteTimeoutArmed = false ∧
    (st.pendingTxs = [] →
      ((closeOut H serialize now st).1).vote = none ∧
      ((closeOut H serialize now st).1).pendingTxs = [] ∧
      (closeOut H serialize now st).2 = []) ∧
    (∀ tx rest, st.pendingTxs = tx :: rest →
      ((closeOut H serialize now st).1).vote = some tx ∧
      ((closeOut H serialize now st).1).pendingTxs = rest ∧
      ((closeOut H serialize now st).1).consensus = [] ∧
      (closeOut H serialize now st).2 =
        [Msg.TRANSACTION (serialize tx)
          (VoteVal.pair
            (transactionValid st.accounts st.chainTransactions.length rest.length
              now tx true).1
            (transactionValid st.accounts st.chainTransactions.length rest.length
              now tx true).2)
          (st.tree.getRoot H)]) := by
  refine ⟨?_, ?_, ?_⟩
  · cases h : st.pendingTxs <;> simp [closeOut, h]
  · intro h
    simp [closeOut, h]
  · intro tx rest h
    simp [closeOut, h]

/-- Shape of a completed tally: a tally that ends in commit or reject runs the
close-out on an intermediate state that carries the original pending queue and
the final accounts, chain and tree. -/
theorem tally_mid (H : String → String) (txHash serialize : Tx → String)
    (now : Int) (st : NodeState)
    (h : (transactionTally H txHash serialize now st).2.2 = Outcome.committed ∨
         (transactionTally H txHash serialize now st).2.2 = Outcome.rejected) :
    ∃ stMid : NodeState,
      (transactionTally H txHash serialize now st).1 =
        (closeOut H serialize now stMid).1 ∧
      (transactionTally H txHash serialize now st).2.1 =
        (closeOut H serialize now stMid).2 ∧
      stMid.pendingTxs = st.pendingTxs ∧
      stMid.accounts = ((transactionTally H txHash serialize now st).1).accounts ∧
      stMid.chainTransactions =
        ((transactionTally H txHash serialize now st).1).chainTransactions ∧
      stMid.tree = ((transactionTally H txHash serialize now st).1).tree := by
  cases hvote : st.vote with
  | none =>
    rw [show transactionTally H txHash serialize now st = (st, [], .noQuorum) by
      simp [transactionTally, hvote]] at h
    simp at h
  | some t =>
    by_cases hq : st.consensus.length < st.validators.length
    · rw [show transactionTally H txHash serialize now st = (st, [], .noQuorum) by
        simp [transactionTally, hvote, hq]] at h
      simp at h
    · simp only [transactionTally, hvote, hq, if_false]
      split
      · rename_i hres
        simp only [transactionTally, hvote, hq, if_false, if_pos hres] at h
        cases hrec : (commitApply H st.publicKey t st.chainTransactions.length
            st.consensus
            (transactionValid st.accounts st.chainTransactions.length
              st.pendingTxs.length now t false).1 st.accounts).record with
        | none =>
          rw [hrec] at h
          simp at h
        | some rcd =>
          dsimp only
          refine ⟨_, rfl, rfl, rfl, ?_, ?_, ?_⟩
          · exact ((closeOut_preserves H serialize now _).1).symm
          · exact ((closeOut_preserves H serialize now _).2.1).symm
          · exact ((closeOut_preserves H serialize now _).2.2).symm
      · refine ⟨_, rfl, rfl, rfl, ?_, ?_, ?_⟩
        · exact ((closeOut_preserves H serialize now _).1).symm
        · exact ((closeOut_preserves H serialize now _).2.1).symm
        · exact ((closeOut_preserves H serialize now _).2.2).symm

/-! ## C5: slot close-out after a tally -/

/-- C5 counterexample: a tally can end in neither commit nor reject — when the
majority votes `true` on a transaction whose `from` account does not exist,
the commit path throws on `accounts[from].balance` before the close-out code,
so the vote is NOT cleared, the armed timeout is NOT cancelled and the pending
queue head is NOT promoted, contrary to "after every tally". -/
theorem tally_error_keeps_vote_cex :
    (transactionTally (fun s => s) Tx.serializeModel Tx.serializeModel 0
      ⟨"P", some ⟨"Q", "B", 500, 0, 0, "x", true⟩,
       [("v1", ⟨true⟩), ("v2", ⟨true⟩)], [⟨"Z", "B", 300, 0, 0, "w", true⟩], true,
       [], [("A", ⟨1000, 0, 0⟩)], MerkleTree.init, ["v1", "v2"]⟩).2.2 =
      Outcome.errored ∧
    ((transactionTally (fun s => s) Tx.serializeModel Tx.serializeModel 0
      ⟨"P", some ⟨"Q", "B", 500, 0, 0, "x", true⟩,
       [("v1", ⟨true⟩), ("v2", ⟨true⟩)], [⟨"Z", "B", 300, 0, 0, "w", true⟩], true,
       [], [("A", ⟨1000, 0, 0⟩)], MerkleTree.init, ["v1", "v2"]⟩).1).vote =
      some ⟨"Q", "B", 500, 0, 0, "x", true⟩ ∧
    ((transactionTally (fun s => s) Tx.serializeModel Tx.serializeModel 0
      ⟨"P", some ⟨"Q", "B", 500, 0, 0, "x", true⟩,
       [("v1", ⟨true⟩), ("v2", ⟨true⟩)], [⟨"Z", "B", 300, 0, 0, "w", true⟩], true,
       [], [("A", ⟨1000, 0, 0⟩)], MerkleTree.init, ["v1", "v2"]⟩).1).voteTimeoutArmed =
      true ∧
    ((transactionTally (fun s => s) Tx.serializeModel Tx.serializeModel 0
      ⟨"P", some ⟨"Q", "B", 500, 0, 0, "x", true⟩,
       [("v1", ⟨true⟩), ("v2", ⟨true⟩)], [⟨"Z", "B", 300, 0, 0, "w", true⟩], true,
       [], [("A", ⟨1000, 0, 0⟩)], MerkleTree.init, ["v1", "v2"]⟩).1).pendingTxs =
      [⟨"Z", "B", 300, 0, 0, "w", true⟩] := by
  decide

/-- C5 amended: after every tally that completes with a commit or a reject
(i.e. does not throw in the commit mutation), the vote is cleared, the armed
vote timeout is cancelled (Node's legacy `Timeout.prototype.close()` calls
`clearTimeout`), and if the pending queue is non-empty its head is removed,
becomes the new vote with `consensus` cleared, and its TRANSACTION message is
broadcast, opening the next round. -/
theorem tally_closeout_amended (H : String → String) (txHash serialize : Tx → String)
    (now : Int) (st : NodeState)
    (h : (transactionTally H txHash serialize now st).2.2 = Outcome.committed ∨
         (transactionTally H txHash serialize now st).2.2 = Outcome.rejected) :
    ((transactionTally H txHash serialize now st).1).voteTimeoutArmed = false ∧
    (st.pendingTxs = [] →
      ((transactionTally H txHash serialize now st).1).vote = none ∧
      ((transactionTally H txHash serialize now st).1).pendingTxs = [] ∧
      (transactionTally H txHash serialize now st).2.1 = []) ∧
    (∀ tx rest, st.pendingTxs = tx :: rest →
      ((transactionTally H txHash serialize now st).1).vote = some tx ∧
      ((transactionTally H txHash serialize now st).1).pendingTxs = rest ∧
      ((transactionTally H txHash serialize now st).1).consensus = [] ∧
      (transactionTally H txHash serialize now st).2.1 =
        [Msg.TRANSACTION (serialize tx)
          (VoteVal.pair
            (transactionValid ((transactionTally H txHash serialize now st).1).accounts
              ((transactionTally H txHash serialize now st).1).chainTransactions.length
              rest.length now tx true).1
            (transactionValid ((transactionTally H txHash serialize now st).1).accounts
              ((transactionTally H txHash serialize now st).1).chainTransactions.length
              rest.length now tx true).2)
          (((transactionTally H txHash serialize now st).1).tree.getRoot H)]) := by
  obtain ⟨stMid, heq1, heq2, hpend, hacc, hchain, htree⟩ :=
    tally_mid H txHash serialize now st h
  obtain ⟨harm, hnil, hcons⟩ := closeOut_spec H serialize now stMid
  refine ⟨?_, ?_, ?_⟩
  · rw [heq1]
    exact harm
  · intro hp
    obtain ⟨h1, h2, h3⟩ := hnil (hpend.trans hp)
    rw [heq1, heq2]
    exact ⟨h1, h2, h3⟩
  · intro tx rest hp
    obtain ⟨h1, h2, h3, h4⟩ := hcons tx rest (hpend.trans hp)
    rw [heq1] at hacc hchain htree
    rw [heq1, heq2, ← hacc, ← hchain, ← htree]
    exact ⟨h1, h2, h3, h4⟩

/-- Witness for the amended C5: a concrete rejected tally clears the vote,
disarms the timeout and promotes the pending head. -/
theorem tally_closeout_amended_witness :
    ((transactionTally (fun s => s) Tx.serializeModel Tx.serializeModel 0
      ⟨"P", some ⟨"Q", "B", 500, 0, 0, "x", true⟩, [("v1", ⟨false⟩)],
       [⟨"Z", "B", 300, 0, 0, "w", true⟩], true, [],
       [("A", ⟨1000, 0, 0⟩)], MerkleTree.init, ["v1"]⟩).1).voteTimeoutArmed = false ∧
    ((transactionTally (fun s => s) Tx.serializeModel Tx.serializeModel 0
      ⟨"P", some ⟨"Q", "B", 500, 0, 0, "x", true⟩, [("v1", ⟨false⟩)],
       [⟨"Z", "B", 300, 0, 0, "w", true⟩], true, [],
       [("A", ⟨1000, 0, 0⟩)], MerkleTree.init, ["v1"]⟩).1).vote =
      some ⟨"Z", "B", 300, 0, 0, "w", true⟩ ∧
    ((transactionTally (fun s => s) Tx.serializeModel Tx.serializeModel 0
      ⟨"P", some ⟨"Q", "B", 500, 0, 0, "x", true⟩, [("v1", ⟨false⟩)],
       [⟨"Z", "B", 300, 0, 0, "w", true⟩], true, [],
       [("A", ⟨1000, 0, 0⟩)], MerkleTree.init, ["v1"]⟩).1).pendingTxs = [] := by
  have happ := tally_closeout_amended (fun s => s) Tx.serializeModel Tx.serializeModel 0
    ⟨"P", some ⟨"Q", "B", 500, 0, 0, "x", true⟩, [("v1", ⟨false⟩)],
     [⟨"Z", "B", 300, 0, 0, "w", true⟩], true, [],
     [("A", ⟨1000, 0, 0⟩)], MerkleTree.init, ["v1"]⟩ (Or.inr (by decide))
  obtain ⟨h1, -, h3⟩ := happ
  obtain ⟨v1, v2, -, -⟩ := h3 ⟨"Z", "B", 300, 0, 0, "w", true⟩ [] rfl
  exact ⟨h1, v1, v2⟩

/-! ## C6: atomicity of the reject path -/

/-- C6: when at tally time the `true` votes (the node's own vote included) do
not strictly outnumber the `false` votes, the tally rejects: no record is
appended to `chain.transactions`, no account balance, stake or nonce changes,
and nothing is added to the Merkle tree — the chain and account state are
unchanged by the rejected slot (in particular no voter is slashed). -/
theorem reject_path_atomic (H : String → String) (txHash serialize : Tx → String)
    (now : Int) (st : NodeState) (t : Tx)
    (hv : st.vote = some t)
    (hq : st.validators.length ≤ st.consensus.length)
    (hr : ((votesAtTally st now t).filter (· == true)).length ≤
      ((votesAtTally st now t).filter (· == false)).length) :
    (transactionTally H txHash serialize now st).2.2 = Outcome.rejected ∧
    ((transactionTally H txHash serialize now st).1).accounts = st.accounts ∧
    ((transactionTally H txHash serialize now st).1).chainTransactions =
      st.chainTransactions ∧
    ((transactionTally H txHash serialize now st).1).tree = st.tree := by
  have hq' : ¬ (st.consensus.length < st.validators.length) := Nat.not_lt.mpr hq
  simp only [transactionTally, hv, hq', if_false]
  split
  · rename_i hres
    exact absurd (of_decide_eq_true hres) (Nat.not_lt.mpr hr)
  · exact ⟨rfl, (closeOut_preserves H serialize now _).1,
      (closeOut_preserves H serialize now _).2.1,
      (closeOut_preserves H serialize now _).2.2⟩

/-- Witness for C6: a concrete tied tally (one `false` peer vote, own vote
`false`) rejects and leaves accounts, chain and Merkle tree unchanged. -/
theorem reject_path_atomic_witness :
    (transactionTally (fun s => s) Tx.serializeModel Tx.serializeModel 0
      ⟨"P", some ⟨"Q", "B", 500, 0, 0, "x", true⟩, [("v1", ⟨false⟩)], [], true,
       [], [("A", ⟨1000, 0, 0⟩)], MerkleTree.init, ["v1"]⟩).2.2 =
      Outcome.rejected ∧
    ((transactionTally (fun s => s) Tx.serializeModel Tx.serializeModel 0
      ⟨"P", some ⟨"Q", "B", 500, 0, 0, "x", true⟩, [("v1", ⟨false⟩)], [], true,
       [], [("A", ⟨1000, 0, 0⟩)], MerkleTree.init, ["v1"]⟩).1).accounts =
      [("A", ⟨1000, 0, 0⟩)] ∧
    ((transactionTally (fun s => s) Tx.serializeModel Tx.serializeModel 0
      ⟨"P", some ⟨"Q", "B", 500, 0, 0, "x", true⟩, [("v1", ⟨false⟩)], [], true,
       [], [("A", ⟨1000, 0, 0⟩)], MerkleTree.init, ["v1"]⟩).1).chainTransactions =
      [] ∧
    ((transactionTally (fun s => s) Tx.serializeModel Tx.serializeModel 0
      ⟨"P", some ⟨"Q", "B", 500, 0, 0, "x", true⟩, [("v1", ⟨false⟩)], [], true,
       [], [("A", ⟨1000, 0, 0⟩)], MerkleTree.init, ["v1"]⟩).1).tree =
      MerkleTree.init :=
  reject_path_atomic (fun s => s) Tx.serializeModel Tx.serializeModel 0
    ⟨"P", some ⟨"Q", "B", 500, 0, 0, "x", true⟩, [("v1", ⟨false⟩)], [], true,
     [], [("A", ⟨1000, 0, 0⟩)], MerkleTree.init, ["v1"]⟩
    ⟨"Q", "B", 500, 0, 0, "x", true⟩ rfl (by decide) (by decide)



theorem rewardLoop_isSome (n : Nat) :
    ∀ (vs : List (String × Bool)) (accs : AccMap) (k : String),
    (getEntry accs k).isSome → (getEntry ((rewardLoop n accs vs).1) k).isSome := by
  intro vs
  induction vs with
  | nil => intro accs k h; exact h
  | cons p rest ih =>
    intro accs k h
    obtain ⟨kv, b⟩ := p
    simp only [rewardLoop]
    cases hv : getEntry accs kv with
    | none => simpa using h
    | some a =>
      refine ih _ k ?_
      split
      · exact getEntry_setEntry_isSome accs kv k _ h
      · exact getEntry_setEntry_isSome accs kv k _ h

theorem commit_tail_agree (H : String → String) (txHash : Tx → String)
    (pk : String) (t : Tx) (chainLen : Nat)
    (consensusPre : List (String × ConsVote)) (selfValid : Bool)
    (accounts0 : AccMap) (tree : MerkleTree) (accC : AccMap)
    (hself : ∀ p ∈ consensusPre, p.1 ≠ pk)
    (hnodup : (consensusPre.map (·.1)).Nodup)
    (hpresC : ∀ p ∈ recordVotes consensusPre pk selfValid,
      (getEntry accC p.1).isSome) :
    (if (!(false && decide (chainLen < genesisWindow))) = true then
      match getEntry (commitRewardLoop (setEntry consensusPre pk ⟨selfValid⟩)
          (consensusPre.map (·.1) ++ [pk]).length true accC
          (consensusPre.map (·.1) ++ [pk])) t.from' with
      | none =>
        ({ accounts := commitRewardLoop (setEntry consensusPre pk ⟨selfValid⟩)
            (consensusPre.map (·.1) ++ [pk]).length true accC
            (consensusPre.map (·.1) ++ [pk]),
           record := none, err := some "TypeError" } : CommitOut)
      | some a =>
        { accounts := setEntry (commitRewardLoop (setEntry consensusPre pk ⟨selfValid⟩)
            (consensusPre.map (·.1) ++ [pk]).length true accC
            (consensusPre.map (·.1) ++ [pk])) t.from'
            { a with nonce := a.nonce + 1 },
          record := some ⟨t,
            (setEntry consensusPre pk ⟨selfValid⟩).map (fun p => (p.1, p.2.valid)),
            validatorsHash H
              ((setEntry consensusPre pk ⟨selfValid⟩).map (fun p => (p.1, p.2.valid)))⟩,
          err := none }
    else
      { accounts := accC,
        record := some ⟨t,
          (setEntry consensusPre pk ⟨selfValid⟩).map (fun p => (p.1, p.2.valid)),
          validatorsHash H
            ((setEntry consensusPre pk ⟨selfValid⟩).map (fun p => (p.1, p.2.valid)))⟩,
        err := none }) =
      (match getEntry ((rewardLoop (recordVotes consensusPre pk selfValid).length accC
          (recordVotes consensusPre pk selfValid)).1) t.from' with
       | none =>
         ({ accounts := (rewardLoop (recordVotes consensusPre pk selfValid).length accC
             (recordVotes consensusPre pk selfValid)).1,
            record := none, err := some "TypeError" } : CommitOut)
       | some a =>
         { accounts := setEntry ((rewardLoop (recordVotes consensusPre pk selfValid).length
             accC (recordVotes consensusPre pk selfValid)).1) t.from'
             { a with nonce := a.nonce + 1 },
           record := some ⟨t, recordVotes consensusPre pk selfValid,
             validatorsHash H (recordVotes consensusPre pk selfValid)⟩,
           err := none }) ∧
    replayFinish H txHash ⟨accounts0, tree, chainLen, none⟩
      ⟨t, recordVotes consensusPre pk selfValid,
        validatorsHash H (recordVotes consensusPre pk selfValid)⟩ accC =
      (match getEntry ((rewardLoop (recordVotes consensusPre pk selfValid).length accC
          (recordVotes consensusPre pk selfValid)).1) t.from' with
       | none =>
         ({ accounts := (rewardLoop (recordVotes consensusPre pk selfValid).length accC
             (recordVotes consensusPre pk selfValid)).1,
            tree := tree, i := chainLen, err := some "TypeError" } : RState)
       | some a =>
         { accounts := setEntry ((rewardLoop (recordVotes consensusPre pk selfValid).length
             accC (recordVotes consensusPre pk selfValid)).1) t.from'
             { a with nonce := a.nonce + 1 },
           tree := tree.add H (txHash t), i := chainLen + 1, err := none }) := by
  have happend : setEntry consensusPre pk (⟨selfValid⟩ : ConsVote) =
      consensusPre ++ [(pk, ⟨selfValid⟩)] :=
    setEntry_of_notMem consensusPre pk ⟨selfValid⟩ hself
  have hnodup2 : ((setEntry consensusPre pk (⟨selfValid⟩ : ConsVote)).map (·.1)).Nodup := by
    rw [happend, List.map_append, List.nodup_append]
    refine ⟨hnodup, by simp, ?_⟩
    intro a ha
    simp only [List.map_cons, List.map_nil, List.mem_singleton]
    obtain ⟨p, hp, rfl⟩ := List.mem_map.mp ha
    exact hself p hp
  have hkeysv : (recordVotes consensusPre pk selfValid).map (·.1) =
      consensusPre.map (·.1) ++ [pk] := by
    unfold recordVotes
    rw [happend]
    simp
  have hlookup : ∀ p ∈ recordVotes consensusPre pk selfValid,
      ((getEntry (setEntry consensusPre pk (⟨selfValid⟩ : ConsVote)) p.1).map
        ConsVote.valid).getD false = p.2 := by
    intro p hp
    simp only [recordVotes] at hp
    obtain ⟨q, hq, rfl⟩ := List.mem_map.mp hp
    have hq2 : (q.1, q.2) ∈ setEntry consensusPre pk (⟨selfValid⟩ : ConsVote) := by
      simpa using hq
    rw [getEntry_of_mem_nodup _ q.1 q.2 hnodup2 hq2]
    rfl
  have hlm : ((recordVotes consensusPre pk selfValid).map (·.1)).length =
      (recordVotes consensusPre pk selfValid).length := by
    simp
  have hloop := reward_loops_agree (setEntry consensusPre pk ⟨selfValid⟩)
    (recordVotes consensusPre pk selfValid).length
    (recordVotes consensusPre pk selfValid) accC hpresC hlookup
  constructor
  · rw [← hkeysv, hlm, hloop.1]
    unfold recordVotes
    rfl
  · unfold replayFinish
    simp only [Bool.false_and, Bool.not_false, beq_self_eq_true, Bool.and_self,
      if_true]
    have hne := rewardLoop_no_err (recordVotes consensusPre pk selfValid).length
      (recordVotes consensusPre pk selfValid) accC hpresC
    have hpair : rewardLoop (recordVotes consensusPre pk selfValid).length accC
        (recordVotes consensusPre pk selfValid) =
        ((rewardLoop (recordVotes consensusPre pk selfValid).length accC
          (recordVotes consensusPre pk selfValid)).1, none) := by
      rw [← hne]
    rw [hpair]


theorem createAccStep_ok (H : String → String) (txHash : Tx → String)
    (now : Int) (chainLen pendingLen : Nat) (st : RState) (r : Record)
    (acc2 : AccMap)
    (herr : st.err = none)
    (hacc : replayAccepts st.accounts chainLen pendingLen now st.i
      r.transaction = true)
    (hcp : creditPhase (debitPhase st.accounts r.transaction st.i)
      r.transaction = (acc2, none)) :
    createAccStep H txHash now chainLen pendingLen st r =
      replayFinish H txHash st r acc2 := by
  unfold createAccStep
  rw [herr]
  simp only [Option.isSome_none, Bool.false_eq_true, if_false]
  rw [hacc]
  simp only [Bool.not_true, Bool.false_eq_true, if_false]
  rw [hcp]

/-- C1 amended: the commit-path mutation and the replay transition agree on a
committed record — commit succeeds, appends exactly the record built from the
consensus votes, and the replay step applied to that record from the same
pre-commit accounts produces exactly the commit path's accounts and Merkle
add — provided the transaction's `from` account exists, every key in the
consensus (the node's own key included) has an account, the node's own key was
not already among the collected votes, and the replay validity gate accepts
the record at the extended chain length and the same wall-clock time.  The
counterexample shows the unconditional claim fails without the gate
hypothesis. -/
theorem commit_replay_step_agree (H : String → String) (txHash : Tx → String)
    (now : Int) (pk : String) (t : Tx) (chainLen pendingLen : Nat)
    (consensusPre : List (String × ConsVote)) (selfValid : Bool)
    (accounts : AccMap) (tree : MerkleTree)
    (hself : ∀ p ∈ consensusPre, p.1 ≠ pk)
    (hnodup : (consensusPre.map (·.1)).Nodup)
    (hfrom : (getEntry accounts t.from').isSome)
    (hvals : ∀ p ∈ setEntry consensusPre pk (⟨selfValid⟩ : ConsVote),
      (getEntry accounts p.1).isSome)
    (hgate : replayAccepts accounts (chainLen + 1) pendingLen now chainLen t = true) :
    (commitApply H pk t chainLen consensusPre selfValid accounts).err = none ∧
    (commitApply H pk t chainLen consensusPre selfValid accounts).record =
      some ⟨t, recordVotes consensusPre pk selfValid,
        validatorsHash H (recordVotes consensusPre pk selfValid)⟩ ∧
    createAccStep H txHash now (chainLen + 1) pendingLen
      ⟨accounts, tree, chainLen, none⟩
      ⟨t, recordVotes consensusPre pk selfValid,
        validatorsHash H (recordVotes consensusPre pk selfValid)⟩ =
      ⟨(commitApply H pk t chainLen consensusPre selfValid accounts).accounts,
        tree.add H (txHash t), chainLen + 1, none⟩ := by
  obtain ⟨afrom, hafrom⟩ := Option.isSome_iff_exists.mp hfrom
  have hguard : ((!(t.from' == "GENESIS" && decide (chainLen < genesisWindow))) &&
      (getEntry accounts t.from').isNone) = false := by
    rw [hafrom]
    simp
  have hAB : ensureAcc
      (if (t.from' == "GENESIS" && decide (chainLen < genesisWindow)) = true
        then accounts
        else setEntry accounts t.from'
          { (getEntry accounts t.from').getD Account.init with
            balance := ((getEntry accounts t.from').getD Account.init).balance
              - t.amount })
      t.from' = debitPhase accounts t chainLen := by
    unfold debitPhase
    by_cases hgen : (t.from' == "GENESIS" && decide (chainLen < genesisWindow)) = true
    · rw [if_pos hgen, if_pos hgen]
      exact ensureAcc_of_isSome accounts t.from' hfrom
    · rw [if_neg hgen, if_neg hgen, ensureAcc_of_isSome accounts t.from' hfrom]
      exact ensureAcc_of_isSome _ _
        (getEntry_setEntry_isSome accounts t.from' t.from' _ hfrom)
  have hdebSome : ∀ k, (getEntry accounts k).isSome →
      (getEntry (debitPhase accounts t chainLen) k).isSome := by
    intro k hk
    unfold debitPhase
    split
    · exact hk
    · exact getEntry_setEntry_isSome _ _ _ _ (getEntry_ensureAcc_isSome _ _ _ hk)
  have hvalsVotes : ∀ p ∈ recordVotes consensusPre pk selfValid,
      (getEntry accounts p.1).isSome := by
    intro p hp
    simp only [recordVotes] at hp
    obtain ⟨q, hq, rfl⟩ := List.mem_map.mp hp
    exact hvals q hq
  simp only [commitApply, hguard, Bool.false_eq_true, if_false]
  rw [hAB]
  by_cases hto : (t.to' != "stake") = true
  · have hXsome : ∀ k, (getEntry accounts k).isSome →
        (getEntry (setEntry (ensureAcc (debitPhase accounts t chainLen) t.to') t.to'
          { (getEntry (ensureAcc (debitPhase accounts t chainLen) t.to') t.to').getD
              Account.init with
            balance := ((getEntry (ensureAcc (debitPhase accounts t chainLen) t.to')
              t.to').getD Account.init).balance + (t.amount - fee) }) k).isSome := by
      intro k hk
      exact getEntry_setEntry_isSome _ _ _ _
        (getEntry_ensureAcc_isSome _ _ _ (hdebSome k hk))
    have hcredit : creditPhase (debitPhase accounts t chainLen) t =
        (setEntry (ensureAcc (debitPhase accounts t chainLen) t.to') t.to'
          { (getEntry (ensureAcc (debitPhase accounts t chainLen) t.to') t.to').getD
              Account.init with
            balance := ((getEntry (ensureAcc (debitPhase accounts t chainLen) t.to')
              t.to').getD Account.init).balance + (t.amount - fee) }, none) := by
      unfold creditPhase
      rw [if_pos hto]
    rw [if_pos hto]
    rw [createAccStep_ok H txHash now (chainLen + 1) pendingLen
      ⟨accounts, tree, chainLen, none⟩
      ⟨t, recordVotes consensusPre pk selfValid,
        validatorsHash H (recordVotes consensusPre pk selfValid)⟩
      _ rfl hgate hcredit]
    obtain ⟨hT1, hT2⟩ := commit_tail_agree H txHash pk t chainLen consensusPre
      selfValid accounts tree _ hself hnodup
      (fun p hp => hXsome p.1 (hvalsVotes p hp))
    rw [hT1, hT2]
    obtain ⟨aL, haL⟩ := Option.isSome_iff_exists.mp
      (rewardLoop_isSome (recordVotes consensusPre pk selfValid).length
        (recordVotes consensusPre pk selfValid) _ t.from' (hXsome t.from' hfrom))
    rw [haL]
    exact ⟨rfl, rfl, rfl⟩
  · obtain ⟨aD, haD⟩ := Option.isSome_iff_exists.mp (hdebSome t.from' hfrom)
    have hXsome : ∀ k, (getEntry accounts k).isSome →
        (getEntry (setEntry (debitPhase accounts t chainLen) t.from'
          { aD with stake := aD.stake + (t.amount - fee) }) k).isSome := by
      intro k hk
      exact getEntry_setEntry_isSome _ _ _ _ (hdebSome k hk)
    have hcredit : creditPhase (debitPhase accounts t chainLen) t =
        (setEntry (debitPhase accounts t chainLen) t.from'
          { aD with stake := aD.stake + (t.amount - fee) }, none) := by
      unfold creditPhase
      rw [if_neg hto, haD]
    rw [if_neg hto, haD]
    simp only [Option.getD_some]
    rw [createAccStep_ok H txHash now (chainLen + 1) pendingLen
      ⟨accounts, tree, chainLen, none⟩
      ⟨t, recordVotes consensusPre pk selfValid,
        validatorsHash H (recordVotes consensusPre pk selfValid)⟩
      _ rfl hgate hcredit]
    obtain ⟨hT1, hT2⟩ := commit_tail_agree H txHash pk t chainLen consensusPre
      selfValid accounts tree _ hself hnodup
      (fun p hp => hXsome p.1 (hvalsVotes p hp))
    rw [hT1, hT2]
    obtain ⟨aL, haL⟩ := Option.isSome_iff_exists.mp
      (rewardLoop_isSome (recordVotes consensusPre pk selfValid).length
        (recordVotes consensusPre pk selfValid) _ t.from' (hXsome t.from' hfrom))
    rw [haL]
    exact ⟨rfl, rfl, rfl⟩

/-- C1 counterexample: a validator majority can commit a transaction that the
replay validity gate rejects (here an over-spend: amount 5000 against balance
1000), so the account state after the commit differs from the fold of the
replay transition over the extended record sequence — invariant I2 is broken
even though the starting state satisfied it and the replay raises no
exception. -/
theorem commit_replay_disagree_cex :
    (transactionTally (fun s => s) Tx.serializeModel Tx.serializeModel 0
      ⟨"P", some ⟨"A", "B", 5000, 0, 0, "x", true⟩,
       [("v1", ⟨true⟩), ("v2", ⟨true⟩)], [], true,
       [⟨⟨"GENESIS", "A", 1100, 0, 0, "GENESIS", false⟩, [], "x"⟩],
       [("A", ⟨1000, 0, 0⟩)], MerkleTree.init, ["v1", "v2"]⟩).2.2 =
      Outcome.committed ∧
    ([("A", (⟨1000, 0, 0⟩ : Account))] : AccMap) =
      (replayChain (fun s => s) Tx.serializeModel 0
        [⟨⟨"GENESIS", "A", 1100, 0, 0, "GENESIS", false⟩, [], "x"⟩]).accounts ∧
    (replayChain (fun s => s) Tx.serializeModel 0
      ((transactionTally (fun s => s) Tx.serializeModel Tx.serializeModel 0
        ⟨"P", some ⟨"A", "B", 5000, 0, 0, "x", true⟩,
         [("v1", ⟨true⟩), ("v2", ⟨true⟩)], [], true,
         [⟨⟨"GENESIS", "A", 1100, 0, 0, "GENESIS", false⟩, [], "x"⟩],
         [("A", ⟨1000, 0, 0⟩)], MerkleTree.init, ["v1", "v2"]⟩).1).chainTransactions).err
      = none ∧
    ((transactionTally (fun s => s) Tx.serializeModel Tx.serializeModel 0
      ⟨"P", some ⟨"A", "B", 5000, 0, 0, "x", true⟩,
       [("v1", ⟨true⟩), ("v2", ⟨true⟩)], [], true,
       [⟨⟨"GENESIS", "A", 1100, 0, 0, "GENESIS", false⟩, [], "x"⟩],
       [("A", ⟨1000, 0, 0⟩)], MerkleTree.init, ["v1", "v2"]⟩).1).accounts ≠
      (replayChain (fun s => s) Tx.serializeModel 0
        ((transactionTally (fun s => s) Tx.serializeModel Tx.serializeModel 0
          ⟨"P", some ⟨"A", "B", 5000, 0, 0, "x", true⟩,
           [("v1", ⟨true⟩), ("v2", ⟨true⟩)], [], true,
           [⟨⟨"GENESIS", "A", 1100, 0, 0, "GENESIS", false⟩, [], "x"⟩],
           [("A", ⟨1000, 0, 0⟩)], MerkleTree.init, ["v1", "v2"]⟩).1).chainTransactions).accounts := by
  decide

/-- Witness for the amended C1 at a concrete commit: every referenced account
exists, the gate accepts, and the commit and replay transitions produce the
same accounts. -/
theorem commit_replay_step_agree_witness :
    (commitApply (fun s => s) "P" ⟨"A", "B", 200, 0, 0, "x", true⟩ 1
      [("v1", ⟨true⟩)] true
      [("A", ⟨1000, 0, 0⟩), ("v1", ⟨5, 7, 0⟩), ("P", ⟨3, 0, 0⟩)]).err = none ∧
    (commitApply (fun s => s) "P" ⟨"A", "B", 200, 0, 0, "x", true⟩ 1
      [("v1", ⟨true⟩)] true
      [("A", ⟨1000, 0, 0⟩), ("v1", ⟨5, 7, 0⟩), ("P", ⟨3, 0, 0⟩)]).record =
      some ⟨⟨"A", "B", 200, 0, 0, "x", true⟩, recordVotes [("v1", ⟨true⟩)] "P" true,
        validatorsHash (fun s => s) (recordVotes [("v1", ⟨true⟩)] "P" true)⟩ ∧
    createAccStep (fun s => s) Tx.serializeModel 0 2 0
      ⟨[("A", ⟨1000, 0, 0⟩), ("v1", ⟨5, 7, 0⟩), ("P", ⟨3, 0, 0⟩)],
        MerkleTree.init, 1, none⟩
      ⟨⟨"A", "B", 200, 0, 0, "x", true⟩, recordVotes [("v1", ⟨true⟩)] "P" true,
        validatorsHash (fun s => s) (recordVotes [("v1", ⟨true⟩)] "P" true)⟩ =
      ⟨(commitApply (fun s => s) "P" ⟨"A", "B", 200, 0, 0, "x", true⟩ 1
          [("v1", ⟨true⟩)] true
          [("A", ⟨1000, 0, 0⟩), ("v1", ⟨5, 7, 0⟩), ("P", ⟨3, 0, 0⟩)]).accounts,
        MerkleTree.init.add (fun s => s)
          (Tx.serializeModel ⟨"A", "B", 200, 0, 0, "x", true⟩), 2, none⟩ :=
  commit_replay_step_agree (fun s => s) Tx.serializeModel 0 "P"
    ⟨"A", "B", 200, 0, 0, "x", true⟩ 1 0 [("v1", ⟨true⟩)] true
    [("A", ⟨1000, 0, 0⟩), ("v1", ⟨5, 7, 0⟩), ("P", ⟨3, 0, 0⟩)] MerkleTree.init
    (by decide) (by decide) (by decide) (by decide) (by decide)

end OTS
